import Mathlib

/-!
# 2D particle simulation: the physics core of `src/main.cpp`

The C++ `float` fields are idealised as elements of a linearly ordered field `K`
(exact arithmetic, no rounding).  Every definition is generic in `K`, so it runs on `ℚ`;
the theorems that involve the square root are stated for `ℝ` with `Real.sqrt`.
A division whose divisor is zero is modelled as a failure (`none`).

Where rounding decides a property, `resolveCollision` is also embedded in binary32
arithmetic (`resolveCollisionF32`): every operation is the exact operation on rationals
followed by rounding to the nearest binary32 value, ties to even.
-/

namespace ParticleSim

/-- The `Color` struct of `Particle`: three channels `r`, `g`, `b`. -/
structure Color (K : Type) where
  r : K
  g : K
  b : K
deriving DecidableEq, Repr

/-- The private data members of `class Particle`. -/
structure Particle (K : Type) where
  x : K
  y : K
  vx : K
  vy : K
  aspectRatio : K
  mass : K
  color : Color K
deriving DecidableEq, Repr

section Defs

variable {K : Type} [LinearOrderedField K]

/-- The member constant `GRAVITY = -1.0f`. -/
def GRAVITY : K := -1.0

/-- The member constant `DAMPING_FACTOR = 0.99` (declared, used nowhere). -/
def DAMPING_FACTOR : K := 0.99

/-- The local `float radius = 0.05f` of `resolveCollision`, `handleBoundaryCollision`
and `draw`. -/
def radius : K := 0.05

/-- The method `Particle::handleBoundaryCollision`: each axis is clamped to its legal
extreme and the velocity component is forced to point back inside. -/
def handleBoundaryCollision (p : Particle K) : Particle K :=
  let adjustedRadiusX : K := radius * p.aspectRatio
  let p1 : Particle K :=
    if p.x < -p.aspectRatio + adjustedRadiusX then
      { p with x := -p.aspectRatio + adjustedRadiusX, vx := |p.vx| }
    else if p.x > p.aspectRatio - adjustedRadiusX then
      { p with x := p.aspectRatio - adjustedRadiusX, vx := -|p.vx| }
    else p
  if p1.y < -1 + radius then
    { p1 with y := -1 + radius, vy := |p1.vy| }
  else if p1.y > 1 - radius then
    { p1 with y := 1 - radius, vy := -|p1.vy| }
  else p1

/-- The method `Particle::update(dt)`: gravity, then position from the updated velocity,
then the boundary handling. -/
def update (p : Particle K) (dt : K) : Particle K :=
  let vy := p.vy + GRAVITY * dt
  let x := p.x + p.vx * dt
  let y := p.y + vy * dt
  handleBoundaryCollision { p with vy := vy, x := x, y := y }

/-- The method `Particle::updateAspectRatio`. -/
def updateAspectRatio (p : Particle K) (newAspectRatio : K) : Particle K :=
  { p with aspectRatio := newAspectRatio }

/-- The method `Particle::resolveCollision(other)`, with `this` as `self`.  The result is
the pair (`this`, `other`) after the call; `none` stands for a division by zero
(`dx / distance` with `distance = 0`, or the impulse with `mass + other.mass = 0`). -/
def resolveCollision (sqrt : K → K) (self other : Particle K) :
    Option (Particle K × Particle K) :=
  let dx := other.x - self.x
  let dy := other.y - self.y
  let distance := sqrt (dx * dx + dy * dy)
  if distance < 2 * radius then
    if distance = 0 then none
    else
      let nx := dx / distance
      let ny := dy / distance
      let dvx := other.vx - self.vx
      let dvy := other.vy - self.vy
      let relVel := dvx * nx + dvy * ny
      if relVel > 0 then some (self, other)
      else if self.mass + other.mass = 0 then none
      else
        let impulse := (2 * relVel) / (self.mass + other.mass)
        let overlap := 2 * radius - distance
        let separationX := overlap * nx / 2
        let separationY := overlap * ny / 2
        some
          ({ self with
              vx := self.vx + impulse * other.mass * nx
              vy := self.vy + impulse * other.mass * ny
              x := self.x - separationX
              y := self.y - separationY },
           { other with
              vx := other.vx - impulse * self.mass * nx
              vy := other.vy - impulse * self.mass * ny
              x := other.x + separationX
              y := other.y + separationY })
  else some (self, other)

/-- The local `distance` of `resolveCollision`: the distance between the two centres. -/
def centreDistance (sqrt : K → K) (self other : Particle K) : K :=
  sqrt ((other.x - self.x) * (other.x - self.x) + (other.y - self.y) * (other.y - self.y))

/-- The local `nx` of `resolveCollision`. -/
def normalX (sqrt : K → K) (self other : Particle K) : K :=
  (other.x - self.x) / centreDistance sqrt self other

/-- The local `ny` of `resolveCollision`. -/
def normalY (sqrt : K → K) (self other : Particle K) : K :=
  (other.y - self.y) / centreDistance sqrt self other

/-- The relative velocity of `other` with respect to `self` along a direction `(nx, ny)`:
the expression `dvx * nx + dvy * ny` of `resolveCollision`. -/
def relVelAlong (nx ny : K) (self other : Particle K) : K :=
  (other.vx - self.vx) * nx + (other.vy - self.vy) * ny

/-- The local `relVel` of `resolveCollision`. -/
def relVel (sqrt : K → K) (self other : Particle K) : K :=
  relVelAlong (normalX sqrt self other) (normalY sqrt self other) self other

/-- Total momentum of a pair, horizontal component. -/
def momentumX (a b : Particle K) : K := a.mass * a.vx + b.mass * b.vx

/-- Total momentum of a pair, vertical component. -/
def momentumY (a b : Particle K) : K := a.mass * a.vy + b.mass * b.vy

/-- Total kinetic energy of a pair. -/
def kineticEnergy (a b : Particle K) : K :=
  1 / 2 * a.mass * (a.vx ^ 2 + a.vy ^ 2) + 1 / 2 * b.mass * (b.vx ^ 2 + b.vy ^ 2)

/-- A particle at the origin moving right, mass 1: the receiver of the sample collisions. -/
def hitA : Particle K :=
  { x := 0, y := 0, vx := 0.1, vy := 0, aspectRatio := 1, mass := 1, color := ⟨1, 0, 0⟩ }

/-- A particle at `(0.03, 0.04)`, at distance `0.05` from `hitA` and approaching it. -/
def hitB : Particle K :=
  { x := 0.03, y := 0.04, vx := -0.1, vy := 0.05, aspectRatio := 1, mass := 1,
    color := ⟨0, 1, 0⟩ }

/-- What `hitA` is after `hitA.resolveCollision(hitB)`. -/
def hitA' : Particle K :=
  { x := -0.015, y := -0.02, vx := 0.052, vy := -0.064, aspectRatio := 1, mass := 1,
    color := ⟨1, 0, 0⟩ }

/-- What `hitB` is after `hitA.resolveCollision(hitB)`. -/
def hitB' : Particle K :=
  { x := 0.045, y := 0.06, vx := -0.052, vy := 0.114, aspectRatio := 1, mass := 1,
    color := ⟨0, 1, 0⟩ }

/-- Particle A of the head-on scenario: at `(-0.06, 0)` with velocity `(0.1, 0)`, mass 1. -/
def headOnA : Particle K :=
  { x := -0.06, y := 0, vx := 0.1, vy := 0, aspectRatio := 1, mass := 1, color := ⟨1, 0, 0⟩ }

/-- Particle B of the head-on scenario: at `(0.06, 0)` with velocity `(-0.1, 0)`, mass 1. -/
def headOnB : Particle K :=
  { x := 0.06, y := 0, vx := -0.1, vy := 0, aspectRatio := 1, mass := 1, color := ⟨0, 1, 0⟩ }

/-- The head-on scenario moved closer, particle A: at `(-0.04, 0)` with velocity `(0.1, 0)`. -/
def closeA : Particle K :=
  { x := -0.04, y := 0, vx := 0.1, vy := 0, aspectRatio := 1, mass := 1, color := ⟨1, 0, 0⟩ }

/-- The head-on scenario moved closer, particle B: at `(0.04, 0)` with velocity `(-0.1, 0)`. -/
def closeB : Particle K :=
  { x := 0.04, y := 0, vx := -0.1, vy := 0, aspectRatio := 1, mass := 1, color := ⟨0, 1, 0⟩ }

/-- A particle at the origin moving right at speed 1. -/
def touchA : Particle K :=
  { x := 0, y := 0, vx := 1, vy := 0, aspectRatio := 1, mass := 1, color := ⟨1, 0, 0⟩ }

/-- A particle at `(0.1, 0)`, exactly `2 * radius` from `touchA`, moving left at speed 1. -/
def touchB : Particle K :=
  { x := 0.1, y := 0, vx := -1, vy := 0, aspectRatio := 1, mass := 1, color := ⟨0, 1, 0⟩ }

/-- A particle that starts far outside the viewport: at `(7, -3)` with aspect ratio 2. -/
def outsideParticle : Particle K :=
  { x := 7, y := -3, vx := 1, vy := 2, aspectRatio := 2, mass := 1, color := ⟨1, 0, 0⟩ }

/-- The sequence of calls `update(dt)` for the successive `dt` of `dts`, on one particle. -/
def updateAll (p : Particle K) (dts : List K) : Particle K :=
  dts.foldl update p

/-- The particle of the falling scenario: at `(0, 0.9)`, at rest, aspect ratio 1. -/
def fallingParticle : Particle K :=
  { x := 0, y := 0.9, vx := 0, vy := 0, aspectRatio := 1.0, mass := 1, color := ⟨1, 0, 0⟩ }

/-- The falling particle after `n` frames of `dt = 0.016`. -/
def fallingAfter (n : Nat) : Particle K :=
  updateAll fallingParticle (List.replicate n 0.016)

/-- The exit test of the constructor's `do ... while` loop: the colour is black or white. -/
def isBlackOrWhite (color : Color K) : Prop :=
  (color.r = 0 ∧ color.g = 0 ∧ color.b = 0) ∨ (color.r = 1 ∧ color.g = 1 ∧ color.b = 1)

instance (color : Color K) : Decidable (isBlackOrWhite color) := by
  unfold isBlackOrWhite
  infer_instance

/-- The colour made of the three draws `pos`, `pos + 1`, `pos + 2` of the stream: one round
of `color.r = disColor(gen); color.g = disColor(gen); color.b = disColor(gen)`. -/
def drawColor (draws : Nat → Int) (pos : Nat) : Color K :=
  { r := (draws pos : K), g := (draws (pos + 1) : K), b := (draws (pos + 2) : K) }

/-- The rejection loop of the constructor, reading the stream `draws` of results of
`disColor(gen)` from position `pos` on; `fuel` bounds the number of rounds, and `none` is
the loop still running when the fuel is spent. -/
def sampleColor (draws : Nat → Int) : Nat → Nat → Option (Color K)
  | 0, _ => none
  | fuel + 1, pos =>
    let color : Color K := drawColor draws pos
    if isBlackOrWhite color then sampleColor draws fuel (pos + 3) else some color

/-- The constructor `Particle::Particle`: `x`, `y`, `vx`, `vy` are the four values drawn
from the real distributions, `draws` the stream of colour draws; the mass is 1. -/
def construct (x y vx vy aspectRatio : K) (draws : Nat → Int) (fuel : Nat) :
    Option (Particle K) :=
  (sampleColor draws fuel 0).map fun color =>
    { x := x, y := y, vx := vx, vy := vy, aspectRatio := aspectRatio, mass := 1.0,
      color := color }

/-- The inner loop of the collision pass, `for (j = ...; j < n; ++j)`, as the list of the
calls `particles[i].resolveCollision(particles[j])` it makes from `j` on. -/
def innerLoop (n i j : Nat) : List (Nat × Nat) :=
  if j < n then (i, j) :: innerLoop n i (j + 1) else []
termination_by n - j

/-- The outer loop of the collision pass, `for (i = ...; i < n; ++i)` with the inner loop
started at `j = i + 1`, as the list of calls it makes from `i` on. -/
def outerLoop (n i : Nat) : List (Nat × Nat) :=
  if i < n then innerLoop n i (i + 1) ++ outerLoop n (i + 1) else []
termination_by n - i

/-- The index pairs of the calls of one collision pass over `n` particles, in order. -/
def collisionCalls (n : Nat) : List (Nat × Nat) :=
  outerLoop n 0

/-- A stream of colour draws whose first round is black and whose second is green. -/
def sampleDraws : Nat → Int :=
  fun i => if i = 4 then 1 else 0

/-- The function `framebuffer_size_callback`, on the particle vector it reaches through the
window user pointer: the new ratio `width / static_cast<float>(height)` is pushed to every
particle.  `none` stands for the division by a zero height. -/
def framebuffer_size_callback (particles : List (Particle K)) (width height : Int) :
    Option (List (Particle K)) :=
  if (height : K) = 0 then none
  else
    let aspectRatio : K := (width : K) / (height : K)
    some (particles.map fun particle => updateAspectRatio particle aspectRatio)

/-- The component of a particle's velocity along a direction `(nx, ny)`. -/
def velAlong (nx ny : K) (p : Particle K) : K :=
  p.vx * nx + p.vy * ny

/-- A particle at the origin moving left, mass 1. -/
def apartA : Particle K :=
  { x := 0, y := 0, vx := -0.1, vy := 0, aspectRatio := 1, mass := 1, color := ⟨1, 0, 0⟩ }

/-- A particle at `(0.06, 0)` moving right, mass 1: it overlaps `apartA` and moves away
from it. -/
def apartB : Particle K :=
  { x := 0.06, y := 0, vx := 0.1, vy := 0, aspectRatio := 1, mass := 1, color := ⟨0, 1, 0⟩ }

/-- A particle at the origin, mass 1, on top of which `stackedB` lies. -/
def stackedA : Particle K :=
  { x := 0, y := 0, vx := 0.1, vy := 0, aspectRatio := 1, mass := 1, color := ⟨1, 0, 0⟩ }

/-- A particle at the origin, mass 1: its centre coincides with that of `stackedA`. -/
def stackedB : Particle K :=
  { x := 0, y := 0, vx := -0.1, vy := 0, aspectRatio := 1, mass := 1, color := ⟨0, 1, 0⟩ }

/-- The call `particles[i].resolveCollision(particles[j])` on the particle vector: both
elements are replaced by what the call leaves.  `none` is an index outside the vector or a
failed call. -/
def resolveAt (sqrt : K → K) (particles : List (Particle K)) (i j : Nat) :
    Option (List (Particle K)) :=
  match particles[i]?, particles[j]? with
  | some self, some other =>
    match resolveCollision sqrt self other with
    | some (self', other') => some ((particles.set i self').set j other')
    | none => none
  | _, _ => none

/-- The inner loop of the collision pass on the particle vector, from `j` on; `n` is
`particles.size()`, which no call changes. -/
def innerPass (sqrt : K → K) (n i j : Nat) (particles : List (Particle K)) :
    Option (List (Particle K)) :=
  if j < n then
    match resolveAt sqrt particles i j with
    | some next => innerPass sqrt n i (j + 1) next
    | none => none
  else some particles
termination_by n - j

/-- The outer loop of the collision pass on the particle vector, from `i` on. -/
def outerPass (sqrt : K → K) (n i : Nat) (particles : List (Particle K)) :
    Option (List (Particle K)) :=
  if i < n then
    match innerPass sqrt n i (i + 1) particles with
    | some next => outerPass sqrt n (i + 1) next
    | none => none
  else some particles
termination_by n - i

/-- One collision pass of the frame loop of `main` over the particle vector. -/
def collisionPass (sqrt : K → K) (particles : List (Particle K)) :
    Option (List (Particle K)) :=
  outerPass sqrt particles.length 0 particles

/-- A particle at rest at `(x, 0)`, mass 1. -/
def restingAt (x : K) : Particle K :=
  { x := x, y := 0, vx := 0, vy := 0, aspectRatio := 1, mass := 1, color := ⟨1, 0, 0⟩ }

/-- The power `2 ^ e` of two, for an integer exponent. -/
def pow2 (e : Int) : ℚ :=
  if 0 ≤ e then ((2 ^ e.toNat : Nat) : ℚ) else 1 / ((2 ^ (-e).toNat : Nat) : ℚ)

/-- The number of halvings that bring `n` below 2, at most `fuel` of them. -/
def log2Fuel : Nat → Nat → Nat
  | 0, _ => 0
  | fuel + 1, n => if n < 2 then 0 else log2Fuel fuel (n / 2) + 1

/-- The position of the leading bit of `n`: the `k` with `2 ^ k ≤ n < 2 ^ (k + 1)`, and 0
for `n = 0`. -/
def ilog2 (n : Nat) : Nat :=
  log2Fuel n n

/-- The integer `e` with `2 ^ e ≤ a < 2 ^ (e + 1)`, for a positive rational `a`. -/
def floorLog2 (a : ℚ) : Int :=
  let e0 : Int := (ilog2 a.num.natAbs : Int) - (ilog2 a.den : Int)
  if pow2 e0 ≤ a then e0 else e0 - 1

/-- The integer nearest to a non-negative rational, a tie going to the even one. -/
def roundToEven (n : ℚ) : Int :=
  let m : Int := Rat.floor n
  let r : ℚ := n - m
  if r < 1 / 2 then m else if 1 / 2 < r then m + 1 else if m % 2 = 0 then m else m + 1

/-- Rounding of a real result to binary32, the `float` of the program: to the nearest
value with a 24-bit significand and exponent at least `-126` (subnormals included), ties
to even.  `none` is an overflow, which the hardware turns into an infinity. -/
def roundF32 (q : ℚ) : Option ℚ :=
  if q = 0 then some 0
  else
    let a : ℚ := if q < 0 then -q else q
    let e : Int := max (floorLog2 a) (-126)
    let quantum : ℚ := pow2 (e - 23)
    let v : ℚ := (roundToEven (a / quantum) : ℚ) * quantum
    if pow2 128 ≤ v then none else some (if q < 0 then -v else v)

/-- The `float` written as the decimal literal `q`, as in `0.05f`. -/
def f32 (q : ℚ) : ℚ :=
  (roundF32 q).getD 0

/-- Binary search for the integer square root: `r` is the root found so far and the bits
below `k` are still to be decided. -/
def isqrtBits (n : Nat) : Nat → Nat → Nat
  | 0, r => r
  | k + 1, r => isqrtBits n k (if (r + 2 ^ k) * (r + 2 ^ k) ≤ n then r + 2 ^ k else r)

/-- The integer square root: the largest `r` with `r * r ≤ n`. -/
def isqrt (n : Nat) : Nat :=
  isqrtBits n (ilog2 n / 2 + 1) 0

/-- A `float` value in the model: a rational that is a binary32 value, or `none` once a
computation has left the finite numbers (overflow, division by zero). -/
abbrev F32 : Type := Option ℚ

/-- The `float` addition: the exact sum, rounded. -/
def addF32 (a b : F32) : F32 :=
  match a, b with
  | some x, some y => roundF32 (x + y)
  | _, _ => none

/-- The `float` subtraction: the exact difference, rounded. -/
def subF32 (a b : F32) : F32 :=
  match a, b with
  | some x, some y => roundF32 (x - y)
  | _, _ => none

/-- The `float` multiplication: the exact product, rounded. -/
def mulF32 (a b : F32) : F32 :=
  match a, b with
  | some x, some y => roundF32 (x * y)
  | _, _ => none

/-- The `float` division: the exact quotient, rounded; `none` for a zero divisor. -/
def divF32 (a b : F32) : F32 :=
  match a, b with
  | some x, some y => if y = 0 then none else roundF32 (x / y)
  | _, _ => none

/-- The square root of a `float`, correctly rounded to binary32 (rounding the `double`
root of a `float` to `float` gives the same value); `none` for a negative argument. -/
def sqrtF32 (a : F32) : F32 :=
  match a with
  | none => none
  | some q =>
    if q < 0 then none
    else if q = 0 then some 0
    else
      let e : Int := max (Int.fdiv (floorLog2 q) 2) (-126)
      let quantum : ℚ := pow2 (e - 23)
      let t : ℚ := q / (quantum * quantum)
      let m : Nat := isqrt (Rat.floor t).toNat
      let half : ℚ := (m : ℚ) + 1 / 2
      let m' : Nat :=
        if t < half * half then m else if half * half < t then m + 1
        else if m % 2 = 0 then m else m + 1
      some ((m' : ℚ) * quantum)

/-- The local `distance` of `resolveCollision` as the program computes it, in binary32. -/
def distanceF32 (self other : Particle ℚ) : F32 :=
  let dx := subF32 other.x self.x
  let dy := subF32 other.y self.y
  sqrtF32 (addF32 (mulF32 dx dx) (mulF32 dy dy))

/-- The value of `2 * radius` in the program, with `radius = 0.05f`. -/
def twoRadiusF32 : F32 :=
  mulF32 (some 2) (f32 0.05)

/-- The local `relVel` of `resolveCollision` as the program computes it, in binary32. -/
def relVelF32 (self other : Particle ℚ) : F32 :=
  let dx := subF32 other.x self.x
  let dy := subF32 other.y self.y
  let distance := sqrtF32 (addF32 (mulF32 dx dx) (mulF32 dy dy))
  let nx := divF32 dx distance
  let ny := divF32 dy distance
  let dvx := subF32 other.vx self.vx
  let dvy := subF32 other.vy self.vy
  addF32 (mulF32 dvx nx) (mulF32 dvy ny)

/-- The method `Particle::resolveCollision(other)` in the arithmetic of the program: every
operation on `float` is the exact operation followed by rounding to binary32, each
operation rounded on its own (no fused multiply-add).  The fields of the particles are
rationals that are binary32 values; the result is `none` when a value the call compares or
stores is not a finite number (division by zero, overflow). -/
def resolveCollisionF32 (self other : Particle ℚ) : Option (Particle ℚ × Particle ℚ) :=
  let dx := subF32 other.x self.x
  let dy := subF32 other.y self.y
  let distance := sqrtF32 (addF32 (mulF32 dx dx) (mulF32 dy dy))
  let radius : F32 := f32 0.05
  match distance, mulF32 (some 2) radius with
  | some d, some twoRadius =>
    if d < twoRadius then
      let nx := divF32 dx distance
      let ny := divF32 dy distance
      let dvx := subF32 other.vx self.vx
      let dvy := subF32 other.vy self.vy
      let relVel := addF32 (mulF32 dvx nx) (mulF32 dvy ny)
      match relVel with
      | some rv =>
        if rv > 0 then some (self, other)
        else
          let impulse := divF32 (mulF32 (some 2) relVel) (addF32 self.mass other.mass)
          let vx := addF32 self.vx (mulF32 (mulF32 impulse other.mass) nx)
          let vy := addF32 self.vy (mulF32 (mulF32 impulse other.mass) ny)
          let otherVx := subF32 other.vx (mulF32 (mulF32 impulse self.mass) nx)
          let otherVy := subF32 other.vy (mulF32 (mulF32 impulse self.mass) ny)
          let overlap := subF32 (mulF32 (some 2) radius) distance
          let separationX := divF32 (mulF32 overlap nx) (some 2)
          let separationY := divF32 (mulF32 overlap ny) (some 2)
          let x := subF32 self.x separationX
          let y := subF32 self.y separationY
          let otherX := addF32 other.x separationX
          let otherY := addF32 other.y separationY
          match vx, vy, otherVx, otherVy, x, y, otherX, otherY with
          | some vx', some vy', some otherVx', some otherVy',
            some x', some y', some otherX', some otherY' =>
            some ({ self with vx := vx', vy := vy', x := x', y := y' },
              { other with vx := otherVx', vy := otherVy', x := otherX', y := otherY' })
          | _, _, _, _, _, _, _, _ => none
      | none => none
    else some (self, other)
  | _, _ => none

/-- Every numeric field of the particle is a binary32 value. -/
def representable (p : Particle ℚ) : Prop :=
  roundF32 p.x = some p.x ∧ roundF32 p.y = some p.y ∧ roundF32 p.vx = some p.vx ∧
    roundF32 p.vy = some p.vy ∧ roundF32 p.aspectRatio = some p.aspectRatio ∧
    roundF32 p.mass = some p.mass

instance (p : Particle ℚ) : Decidable (representable p) := by
  unfold representable
  infer_instance

/-- A particle at the origin with velocity `(0.5, 0)`, mass 1; every field is a binary32
value. -/
def roundA : Particle ℚ :=
  { x := 0, y := 0, vx := 0.5, vy := 0, aspectRatio := 1, mass := 1, color := ⟨1, 0, 0⟩ }

/-- A particle at `(0.0625, 0)` with velocity `(-0.5, 0)`, mass 1; every field is a
binary32 value. -/
def roundB : Particle ℚ :=
  { x := 0.0625, y := 0, vx := -0.5, vy := 0, aspectRatio := 1, mass := 1,
    color := ⟨0, 1, 0⟩ }

/-- What `roundA` is after `roundA.resolveCollision(roundB)` in binary32. -/
def roundA1 : Particle ℚ :=
  { x := -5033165 / 2 ^ 28, y := 0, vx := -0.5, vy := 0, aspectRatio := 1, mass := 1,
    color := ⟨1, 0, 0⟩ }

/-- What `roundB` is after `roundA.resolveCollision(roundB)` in binary32. -/
def roundB1 : Particle ℚ :=
  { x := 10905190 / 2 ^ 27, y := 0, vx := 0.5, vy := 0, aspectRatio := 1, mass := 1,
    color := ⟨0, 1, 0⟩ }

/-- A particle at rest at the origin, mass 1. -/
def restA : Particle ℚ :=
  { x := 0, y := 0, vx := 0, vy := 0, aspectRatio := 1, mass := 1, color := ⟨1, 0, 0⟩ }

/-- A particle at rest at `(0.09f, 0)`, mass 1. -/
def restB : Particle ℚ :=
  { x := f32 0.09, y := 0, vx := 0, vy := 0, aspectRatio := 1, mass := 1,
    color := ⟨0, 1, 0⟩ }

/-- What `restA` is after `restA.resolveCollision(restB)` in binary32:
`x = -0.004999998956918716...`. -/
def restA1 : Particle ℚ :=
  { x := -1342177 / 2 ^ 28, y := 0, vx := 0, vy := 0, aspectRatio := 1, mass := 1,
    color := ⟨1, 0, 0⟩ }

/-- What `restB` is after `restA.resolveCollision(restB)` in binary32:
`x = 0.0949999988079071...`. -/
def restB1 : Particle ℚ :=
  { x := 3187671 / 2 ^ 25, y := 0, vx := 0, vy := 0, aspectRatio := 1, mass := 1,
    color := ⟨0, 1, 0⟩ }

/-- What `restA1` is after `restB1.resolveCollision(restA1)` in binary32:
`x = -0.005000002682209015...`. -/
def restA2 : Particle ℚ :=
  { x := -671089 / 2 ^ 27, y := 0, vx := 0, vy := 0, aspectRatio := 1, mass := 1,
    color := ⟨1, 0, 0⟩ }

end Defs

section Boundary

variable {K : Type} [LinearOrderedField K]

theorem handleBoundaryCollision_aspectRatio (p : Particle K) :
    (handleBoundaryCollision p).aspectRatio = p.aspectRatio := by
  simp only [handleBoundaryCollision]
  split_ifs <;> rfl

theorem update_aspectRatio (p : Particle K) (dt : K) :
    (update p dt).aspectRatio = p.aspectRatio := by
  simp only [update, handleBoundaryCollision_aspectRatio]

theorem updateAll_aspectRatio (dts : List K) (p : Particle K) :
    (updateAll p dts).aspectRatio = p.aspectRatio := by
  induction dts generalizing p with
  | nil => rfl
  | cons dt dts ih =>
    simp only [updateAll, List.foldl_cons] at ih ⊢
    rw [ih, update_aspectRatio]

/-- The horizontal result of the boundary handling, case by case. -/
theorem handleBoundaryCollision_x (p : Particle K) :
    (handleBoundaryCollision p).x =
      if p.x < -p.aspectRatio + radius * p.aspectRatio then
        -p.aspectRatio + radius * p.aspectRatio
      else if p.x > p.aspectRatio - radius * p.aspectRatio then
        p.aspectRatio - radius * p.aspectRatio
      else p.x := by
  simp only [handleBoundaryCollision]
  split_ifs <;> rfl

/-- The vertical result of the boundary handling, case by case. -/
theorem handleBoundaryCollision_y (p : Particle K) :
    (handleBoundaryCollision p).y =
      if p.y < -1 + radius then -1 + radius
      else if p.y > 1 - radius then 1 - radius
      else p.y := by
  simp only [handleBoundaryCollision]
  split_ifs <;> rfl

/-- After the boundary handling the position is within the bounds, for a positive aspect
ratio. -/
theorem handleBoundaryCollision_bounds (p : Particle K) (har : 0 < p.aspectRatio) :
    |(handleBoundaryCollision p).x| ≤ p.aspectRatio - 0.05 * p.aspectRatio ∧
      |(handleBoundaryCollision p).y| ≤ 1 - 0.05 := by
  rw [handleBoundaryCollision_x, handleBoundaryCollision_y]
  simp only [radius]
  constructor
  · split_ifs with h1 h2 <;> rw [abs_le] <;> constructor <;> linarith
  · split_ifs with h1 h2 <;> rw [abs_le] <;> constructor <;> linarith

theorem update_bounds (p : Particle K) (dt : K) (har : 0 < p.aspectRatio) :
    |(update p dt).x| ≤ p.aspectRatio - 0.05 * p.aspectRatio ∧
      |(update p dt).y| ≤ 1 - 0.05 := by
  simp only [update]
  exact handleBoundaryCollision_bounds _ har

/-- C1. Boundary invariant of `update`: for a positive aspect ratio, after one call the
position satisfies `|x| ≤ aspectRatio - 0.05*aspectRatio` and `|y| ≤ 1 - 0.05`, whatever the
starting position and `dt`; the bound is attained on an axis that was clamped in the call
(the integrated coordinate was outside its bounds); and the same bounds hold after every
non-empty sequence of calls, during which the aspect ratio stays what it was. -/
theorem C1_update_boundary_invariant (p : Particle K) (dt : K) (har : 0 < p.aspectRatio) :
    (|(update p dt).x| ≤ p.aspectRatio - 0.05 * p.aspectRatio ∧
      |(update p dt).y| ≤ 1 - 0.05) ∧
    ((p.x + p.vx * dt < -p.aspectRatio + 0.05 * p.aspectRatio ∨
        p.x + p.vx * dt > p.aspectRatio - 0.05 * p.aspectRatio) →
      |(update p dt).x| = p.aspectRatio - 0.05 * p.aspectRatio) ∧
    ((p.y + (p.vy + GRAVITY * dt) * dt < -1 + 0.05 ∨
        p.y + (p.vy + GRAVITY * dt) * dt > 1 - 0.05) →
      |(update p dt).y| = 1 - 0.05) ∧
    (∀ dts : List K, dts ≠ [] →
      (updateAll p dts).aspectRatio = p.aspectRatio ∧
      |(updateAll p dts).x| ≤ p.aspectRatio - 0.05 * p.aspectRatio ∧
      |(updateAll p dts).y| ≤ 1 - 0.05) := by
  refine ⟨update_bounds p dt har, ?_, ?_, ?_⟩
  · intro hx
    simp only [update, handleBoundaryCollision_x, radius]
    have hpos : (0 : K) ≤ p.aspectRatio - 0.05 * p.aspectRatio := by linarith
    rcases hx with hx | hx
    · rw [if_pos hx]
      have : -p.aspectRatio + 0.05 * p.aspectRatio =
          -(p.aspectRatio - 0.05 * p.aspectRatio) := by ring
      rw [this, abs_neg, abs_of_nonneg hpos]
    · have hnot : ¬ p.x + p.vx * dt < -p.aspectRatio + 0.05 * p.aspectRatio := by
        intro hlt
        linarith
      rw [if_neg hnot, if_pos hx, abs_of_nonneg hpos]
  · intro hy
    simp only [update, handleBoundaryCollision_y, radius]
    rcases hy with hy | hy
    · rw [if_pos hy]
      norm_num
    · have hnot : ¬ p.y + (p.vy + GRAVITY * dt) * dt < -1 + 0.05 := by
        intro hlt
        have : (-1 : K) + 0.05 < 1 - 0.05 := by norm_num
        linarith
      rw [if_neg hnot, if_pos hy]
      norm_num
  · intro dts hne
    rcases List.eq_nil_or_concat dts with hnil | ⟨init, last, hcat⟩
    · exact absurd hnil hne
    · subst hcat
      have hstep : updateAll p (init.concat last) = update (updateAll p init) last := by
        simp [updateAll, List.foldl_append]
      have har2 : 0 < (updateAll p init).aspectRatio := by
        rw [updateAll_aspectRatio]
        exact har
      have hb := update_bounds (updateAll p init) last har2
      rw [updateAll_aspectRatio] at hb
      rw [hstep]
      exact ⟨by rw [update_aspectRatio, updateAll_aspectRatio], hb⟩

/-- C1 at a particle that starts far outside a viewport of aspect ratio 2: one call of
`update` with `dt = 1` brings it to the right bound `x = 1.9` and the bottom bound
`y = -0.95`. -/
theorem C1_update_boundary_invariant_witness :
    (|(update (outsideParticle : Particle ℚ) 1).x| ≤ (outsideParticle : Particle ℚ).aspectRatio
        - 0.05 * (outsideParticle : Particle ℚ).aspectRatio ∧
      |(update (outsideParticle : Particle ℚ) 1).y| ≤ 1 - 0.05) ∧
    |(update (outsideParticle : Particle ℚ) 1).x| = 19 / 10 ∧
    (update (outsideParticle : Particle ℚ) 1).y = -19 / 20 :=
  ⟨(C1_update_boundary_invariant (outsideParticle : Particle ℚ) 1
      (by norm_num [outsideParticle])).1,
    by norm_num [update, handleBoundaryCollision, outsideParticle, radius, GRAVITY],
    by norm_num [update, handleBoundaryCollision, outsideParticle, radius, GRAVITY]⟩

/-- Inside the bounds the boundary handling changes nothing. -/
theorem handleBoundaryCollision_inside (p : Particle K)
    (hx1 : ¬ p.x < -p.aspectRatio + radius * p.aspectRatio)
    (hx2 : ¬ p.x > p.aspectRatio - radius * p.aspectRatio)
    (hy1 : ¬ p.y < -1 + radius) (hy2 : ¬ p.y > 1 - radius) :
    handleBoundaryCollision p = p := by
  simp only [handleBoundaryCollision, if_neg hx1, if_neg hx2, if_neg hy1, if_neg hy2]

theorem updateAll_concat (p : Particle K) (dts : List K) (dt : K) :
    updateAll p (dts ++ [dt]) = update (updateAll p dts) dt := by
  simp [updateAll, List.foldl_append]

theorem fallingAfter_succ (n : Nat) :
    (fallingAfter (n + 1) : Particle K) = update (fallingAfter n) 0.016 := by
  simp only [fallingAfter, List.replicate_succ', updateAll_concat]

/-- Closed form of the free fall: before the bounce the height after `n` frames is
`0.9 - 0.000128 * n * (n + 1)` and the vertical velocity is `-0.016 * n`. -/
theorem fallingAfter_closed_form (n : Nat) (hn : n ≤ 119) :
    (fallingAfter n : Particle K) =
      { x := 0, y := 0.9 - 0.000128 * (n : K) * ((n : K) + 1), vx := 0,
        vy := -0.016 * (n : K), aspectRatio := 1.0, mass := 1, color := ⟨1, 0, 0⟩ } := by
  induction n with
  | zero =>
    simp only [fallingAfter, List.replicate_zero, updateAll, List.foldl_nil, fallingParticle]
    norm_num
  | succ n ih =>
    have hn' : n ≤ 119 := by omega
    have hcast : ((n : K) + 1) ≤ 119 := by
      have : ((n + 1 : Nat) : K) ≤ ((119 : Nat) : K) := Nat.cast_le.mpr hn
      push_cast at this
      exact this
    have hn0 : (0 : K) ≤ (n : K) := Nat.cast_nonneg n
    have hprod : ((n : K) + 1) * ((n : K) + 2) ≤ 14280 := by nlinarith
    have hprod0 : (0 : K) ≤ ((n : K) + 1) * ((n : K) + 2) := by positivity
    rw [fallingAfter_succ, ih hn']
    simp only [update, GRAVITY]
    rw [handleBoundaryCollision_inside]
    · simp only [Particle.mk.injEq, Nat.cast_add, Nat.cast_one]
      refine ⟨?_, ?_, trivial, ?_, trivial, trivial, trivial⟩
      · norm_num
      · norm_num
        ring
      · norm_num
        ring
    · simp only [radius]
      norm_num
    · simp only [radius]
      norm_num
    · simp only [radius, not_lt]
      linarith
    · simp only [radius, not_lt]
      nlinarith

/-- C6. Falling-particle scenario: from `(0, 0.9)` at rest, aspect ratio 1, `GRAVITY = -1`
and `dt = 0.016`, there is a frame `k ≤ 200` (it is frame 120) such that after each of the
first `k - 1` calls of `update` the particle is above the bottom bound (`y > -0.95`) and
falling (`vy < 0`), and after the `k`-th call `y = -0.95` exactly and `vy > 0`. -/
theorem C6_falling_particle_bounces :
    ∃ k : Nat, k ≤ 200 ∧
      (∀ j : Nat, 1 ≤ j → j < k →
        (fallingAfter j : Particle K).y > -0.95 ∧ (fallingAfter j : Particle K).vy < 0) ∧
      (fallingAfter k : Particle K).y = -0.95 ∧ (fallingAfter k : Particle K).vy > 0 := by
  refine ⟨120, by norm_num, ?_, ?_⟩
  · intro j hj1 hjk
    have hj : j ≤ 119 := by omega
    have hcast : (j : K) ≤ 119 := by
      have : ((j : Nat) : K) ≤ ((119 : Nat) : K) := Nat.cast_le.mpr hj
      push_cast at this
      exact this
    have hcast1 : (1 : K) ≤ (j : K) := by
      have : ((1 : Nat) : K) ≤ ((j : Nat) : K) := Nat.cast_le.mpr hj1
      push_cast at this
      exact this
    rw [fallingAfter_closed_form j hj]
    constructor
    · show (0.9 : K) - 0.000128 * (j : K) * ((j : K) + 1) > -0.95
      nlinarith
    · show (-0.016 : K) * (j : K) < 0
      linarith
  · have h119 := fallingAfter_closed_form (K := K) 119 (le_refl 119)
    have hstep : (fallingAfter 120 : Particle K) = update (fallingAfter 119) 0.016 :=
      fallingAfter_succ 119
    rw [hstep, h119]
    simp only [update, handleBoundaryCollision, GRAVITY, radius]
    norm_num

end Boundary

section Branches

variable {K : Type} [LinearOrderedField K]

/-- Outside the collision distance the call returns both particles as they were. -/
theorem resolveCollision_far (sqrt : K → K) (a b : Particle K)
    (h : ¬ centreDistance sqrt a b < 2 * radius) :
    resolveCollision sqrt a b = some (a, b) := by
  simp only [centreDistance] at h
  simp only [resolveCollision, if_neg h]

/-- Coincident centres inside the collision distance: the normal cannot be computed. -/
theorem resolveCollision_zero (sqrt : K → K) (a b : Particle K)
    (h : centreDistance sqrt a b < 2 * radius) (h0 : centreDistance sqrt a b = 0) :
    resolveCollision sqrt a b = none := by
  simp only [centreDistance] at h h0
  simp only [resolveCollision, if_pos h, if_pos h0]

/-- The early return: penetrating but already separating. -/
theorem resolveCollision_skip (sqrt : K → K) (a b : Particle K)
    (h : centreDistance sqrt a b < 2 * radius) (h0 : centreDistance sqrt a b ≠ 0)
    (hrel : relVel sqrt a b > 0) :
    resolveCollision sqrt a b = some (a, b) := by
  simp only [centreDistance, relVel, relVelAlong, normalX, normalY] at h h0 hrel
  simp only [resolveCollision, if_pos h, if_neg h0, if_pos hrel]

/-- The impulse cannot be computed when the two masses sum to zero. -/
theorem resolveCollision_massless (sqrt : K → K) (a b : Particle K)
    (h : centreDistance sqrt a b < 2 * radius) (h0 : centreDistance sqrt a b ≠ 0)
    (hrel : ¬ relVel sqrt a b > 0) (hm : a.mass + b.mass = 0) :
    resolveCollision sqrt a b = none := by
  simp only [centreDistance, relVel, relVelAlong, normalX, normalY] at h h0 hrel
  simp only [resolveCollision, if_pos h, if_neg h0, if_neg hrel, if_pos hm]

/-- The resolving branch: impulse on both velocities and half the overlap on both
positions. -/
theorem resolveCollision_hit (sqrt : K → K) (a b : Particle K)
    (h : centreDistance sqrt a b < 2 * radius) (h0 : centreDistance sqrt a b ≠ 0)
    (hrel : ¬ relVel sqrt a b > 0) (hm : a.mass + b.mass ≠ 0) :
    resolveCollision sqrt a b = some
      ({ a with
          vx := a.vx + 2 * relVel sqrt a b / (a.mass + b.mass) * b.mass * normalX sqrt a b
          vy := a.vy + 2 * relVel sqrt a b / (a.mass + b.mass) * b.mass * normalY sqrt a b
          x := a.x - (2 * radius - centreDistance sqrt a b) * normalX sqrt a b / 2
          y := a.y - (2 * radius - centreDistance sqrt a b) * normalY sqrt a b / 2 },
       { b with
          vx := b.vx - 2 * relVel sqrt a b / (a.mass + b.mass) * a.mass * normalX sqrt a b
          vy := b.vy - 2 * relVel sqrt a b / (a.mass + b.mass) * a.mass * normalY sqrt a b
          x := b.x + (2 * radius - centreDistance sqrt a b) * normalX sqrt a b / 2
          y := b.y + (2 * radius - centreDistance sqrt a b) * normalY sqrt a b / 2 }) := by
  simp only [centreDistance, relVel, relVelAlong, normalX, normalY] at h h0 hrel ⊢
  simp only [resolveCollision, if_pos h, if_neg h0, if_neg hrel, if_neg hm]

end Branches

section RealFacts

theorem centreDistance_nonneg (a b : Particle ℝ) : 0 ≤ centreDistance Real.sqrt a b := by
  simp only [centreDistance]
  exact Real.sqrt_nonneg _

theorem centreDistance_mul_self (a b : Particle ℝ) :
    centreDistance Real.sqrt a b * centreDistance Real.sqrt a b =
      (b.x - a.x) * (b.x - a.x) + (b.y - a.y) * (b.y - a.y) := by
  simp only [centreDistance]
  exact Real.mul_self_sqrt (add_nonneg (mul_self_nonneg _) (mul_self_nonneg _))

/-- The normal is a unit vector when the centres are distinct. -/
theorem normal_unit (a b : Particle ℝ) (h0 : centreDistance Real.sqrt a b ≠ 0) :
    normalX Real.sqrt a b * normalX Real.sqrt a b +
      normalY Real.sqrt a b * normalY Real.sqrt a b = 1 := by
  have hsq := centreDistance_mul_self a b
  simp only [normalX, normalY]
  field_simp
  linarith

/-- The distance of the two centres is symmetric in the two particles. -/
theorem centreDistance_comm (a b : Particle ℝ) :
    centreDistance Real.sqrt a b = centreDistance Real.sqrt b a := by
  simp only [centreDistance]
  congr 1
  ring

/-- After the resolving branch the two centres are exactly `2 * radius` apart. -/
theorem centreDistance_after_hit (a b : Particle ℝ)
    (h0 : centreDistance Real.sqrt a b ≠ 0) (x1 y1 x2 y2 : ℝ)
    (hx1 : x1 = a.x - (2 * radius - centreDistance Real.sqrt a b) * normalX Real.sqrt a b / 2)
    (hy1 : y1 = a.y - (2 * radius - centreDistance Real.sqrt a b) * normalY Real.sqrt a b / 2)
    (hx2 : x2 = b.x + (2 * radius - centreDistance Real.sqrt a b) * normalX Real.sqrt a b / 2)
    (hy2 : y2 = b.y + (2 * radius - centreDistance Real.sqrt a b) * normalY Real.sqrt a b / 2) :
    Real.sqrt ((x2 - x1) * (x2 - x1) + (y2 - y1) * (y2 - y1)) = 2 * radius := by
  have hunit := normal_unit a b h0
  have hdx : x2 - x1 = 2 * radius * normalX Real.sqrt a b := by
    rw [hx1, hx2]
    simp only [normalX]
    field_simp
    ring
  have hdy : y2 - y1 = 2 * radius * normalY Real.sqrt a b := by
    rw [hy1, hy2]
    simp only [normalY]
    field_simp
    ring
  have hr : (0 : ℝ) ≤ 2 * radius := by
    simp only [radius]
    norm_num
  rw [hdx, hdy, Real.sqrt_eq_iff_mul_self_eq
    (add_nonneg (mul_self_nonneg _) (mul_self_nonneg _)) hr]
  linear_combination ((2 * radius) * (2 * radius)) * hunit

/-- The relative velocity along the normal does not depend on which particle is the
receiver: both the normal and the velocity difference change sign. -/
theorem relVel_comm (a b : Particle ℝ) :
    relVel Real.sqrt b a = relVel Real.sqrt a b := by
  simp only [relVel, relVelAlong, normalX, normalY, centreDistance_comm b a]
  ring

/-- With distinct centres and masses that do not sum to zero the call returns, and a second
call with the roles exchanged then changes nothing. -/
theorem resolveCollision_twice (a b : Particle ℝ)
    (h0 : centreDistance Real.sqrt a b ≠ 0) (hm : a.mass + b.mass ≠ 0) :
    ∃ a1 b1 : Particle ℝ, resolveCollision Real.sqrt a b = some (a1, b1) ∧
      resolveCollision Real.sqrt b1 a1 = some (b1, a1) := by
  by_cases hd : centreDistance Real.sqrt a b < 2 * radius
  · by_cases hrel : relVel Real.sqrt a b > 0
    · refine ⟨a, b, resolveCollision_skip Real.sqrt a b hd h0 hrel, ?_⟩
      apply resolveCollision_skip
      · rw [centreDistance_comm b a]
        exact hd
      · rw [centreDistance_comm b a]
        exact h0
      · rw [relVel_comm a b]
        exact hrel
    · refine ⟨_, _, resolveCollision_hit Real.sqrt a b hd h0 hrel hm, ?_⟩
      apply resolveCollision_far
      rw [centreDistance_comm]
      have hdist := centreDistance_after_hit a b h0 _ _ _ _ rfl rfl rfl rfl
      simp only [centreDistance] at hdist ⊢
      rw [hdist]
      exact lt_irrefl _
  · refine ⟨a, b, resolveCollision_far Real.sqrt a b hd, ?_⟩
    apply resolveCollision_far
    rw [centreDistance_comm b a]
    exact hd

theorem hit_distance : centreDistance Real.sqrt (hitA : Particle ℝ) hitB = 0.05 := by
  simp only [centreDistance, hitA, hitB]
  rw [Real.sqrt_eq_iff_mul_self_eq] <;> norm_num

theorem hit_relVel : relVel Real.sqrt (hitA : Particle ℝ) hitB = -0.08 := by
  simp only [relVel, relVelAlong, normalX, normalY, hit_distance]
  simp only [hitA, hitB]
  norm_num

theorem hit_result :
    resolveCollision Real.sqrt (hitA : Particle ℝ) hitB = some (hitA', hitB') := by
  rw [resolveCollision_hit Real.sqrt hitA hitB (by rw [hit_distance, radius]; norm_num)
    (by rw [hit_distance]; norm_num) (by rw [hit_relVel]; norm_num)
    (by norm_num [hitA, hitB])]
  simp only [normalX, normalY, hit_distance, hit_relVel]
  simp only [hitA, hitB, hitA', hitB', radius, Option.some.injEq, Prod.mk.injEq,
    Particle.mk.injEq]
  norm_num

theorem headOn_distance : centreDistance Real.sqrt (headOnA : Particle ℝ) headOnB = 0.12 := by
  simp only [centreDistance, headOnA, headOnB]
  rw [Real.sqrt_eq_iff_mul_self_eq] <;> norm_num

theorem close_distance : centreDistance Real.sqrt (closeA : Particle ℝ) closeB = 0.08 := by
  simp only [centreDistance, closeA, closeB]
  rw [Real.sqrt_eq_iff_mul_self_eq] <;> norm_num

theorem close_relVel : relVel Real.sqrt (closeA : Particle ℝ) closeB = -0.2 := by
  simp only [relVel, relVelAlong, normalX, normalY, close_distance]
  simp only [closeA, closeB]
  norm_num

theorem touch_distance : centreDistance Real.sqrt (touchA : Particle ℝ) touchB = 0.1 := by
  simp only [centreDistance, touchA, touchB]
  rw [Real.sqrt_eq_iff_mul_self_eq] <;> norm_num

end RealFacts

section Collision

/-- In exact real arithmetic penetration is fully resolved: when the centre distance `d`
satisfies `0 < d < 2 * 0.05`, the particles approach along the normal (`relVel ≤ 0`) and the
masses do not sum to zero, the call returns, the two centres are then exactly `2 * 0.05`
apart, and the relative velocity along the normal of the call is the negation of what it
was, hence non-negative. -/
theorem penetration_resolved_exact (a b : Particle ℝ)
    (hd0 : 0 < centreDistance Real.sqrt a b)
    (hd : centreDistance Real.sqrt a b < 2 * 0.05)
    (hrel : relVel Real.sqrt a b ≤ 0)
    (hm : a.mass + b.mass ≠ 0) :
    ∃ a' b' : Particle ℝ, resolveCollision Real.sqrt a b = some (a', b') ∧
      centreDistance Real.sqrt a' b' = 2 * 0.05 ∧
      relVelAlong (normalX Real.sqrt a b) (normalY Real.sqrt a b) a' b' =
        -relVel Real.sqrt a b ∧
      0 ≤ relVelAlong (normalX Real.sqrt a b) (normalY Real.sqrt a b) a' b' := by
  have h0 : centreDistance Real.sqrt a b ≠ 0 := ne_of_gt hd0
  have hd' : centreDistance Real.sqrt a b < 2 * radius := by
    simpa only [radius] using hd
  have hunit := normal_unit a b h0
  refine ⟨_, _, resolveCollision_hit Real.sqrt a b hd' h0 (not_lt.mpr hrel) hm, ?_, ?_, ?_⟩
  · have := centreDistance_after_hit a b h0 _ _ _ _ rfl rfl rfl rfl
    simpa only [centreDistance, radius] using this
  · simp only [relVel, relVelAlong] at hrel ⊢
    field_simp
    linear_combination
      (2 * ((b.vx - a.vx) * normalX Real.sqrt a b + (b.vy - a.vy) * normalY Real.sqrt a b)
        * (a.mass + b.mass)) * (-hunit)
  · have hval : relVelAlong (normalX Real.sqrt a b) (normalY Real.sqrt a b)
        { a with
          vx := a.vx + 2 * relVel Real.sqrt a b / (a.mass + b.mass) * b.mass
            * normalX Real.sqrt a b
          vy := a.vy + 2 * relVel Real.sqrt a b / (a.mass + b.mass) * b.mass
            * normalY Real.sqrt a b
          x := a.x - (2 * radius - centreDistance Real.sqrt a b) * normalX Real.sqrt a b / 2
          y := a.y - (2 * radius - centreDistance Real.sqrt a b) * normalY Real.sqrt a b / 2 }
        { b with
          vx := b.vx - 2 * relVel Real.sqrt a b / (a.mass + b.mass) * a.mass
            * normalX Real.sqrt a b
          vy := b.vy - 2 * relVel Real.sqrt a b / (a.mass + b.mass) * a.mass
            * normalY Real.sqrt a b
          x := b.x + (2 * radius - centreDistance Real.sqrt a b) * normalX Real.sqrt a b / 2
          y := b.y + (2 * radius - centreDistance Real.sqrt a b) * normalY Real.sqrt a b / 2 }
        = -relVel Real.sqrt a b := by
      simp only [relVel, relVelAlong]
      field_simp
      linear_combination
        (2 * ((b.vx - a.vx) * normalX Real.sqrt a b + (b.vy - a.vy) * normalY Real.sqrt a b)
          * (a.mass + b.mass)) * (-hunit)
    rw [hval]
    linarith

/-- C4. No spurious mutation: when the centre distance is at least `2 * 0.05` the call
returns both particles with every field as it was, whatever the velocities.  Collision
handling starts exactly below that distance: there the pair comes back unchanged only
through the early return for separating particles (distinct centres and `relVel > 0`). -/
theorem C4_no_spurious_mutation (a b : Particle ℝ) :
    (2 * 0.05 ≤ centreDistance Real.sqrt a b →
      resolveCollision Real.sqrt a b = some (a, b)) ∧
    (centreDistance Real.sqrt a b < 2 * 0.05 →
      (resolveCollision Real.sqrt a b = some (a, b) ↔
        centreDistance Real.sqrt a b ≠ 0 ∧ 0 < relVel Real.sqrt a b)) := by
  constructor
  · intro h
    apply resolveCollision_far
    simp only [radius]
    exact not_lt.mpr h
  · intro h
    have hd : centreDistance Real.sqrt a b < 2 * radius := by
      simpa only [radius] using h
    constructor
    · intro hres
      by_cases h0 : centreDistance Real.sqrt a b = 0
      · rw [resolveCollision_zero Real.sqrt a b hd h0] at hres
        exact absurd hres (by simp)
      · refine ⟨h0, ?_⟩
        by_contra hrel
        by_cases hm : a.mass + b.mass = 0
        · rw [resolveCollision_massless Real.sqrt a b hd h0 hrel hm] at hres
          exact absurd hres (by simp)
        · rw [resolveCollision_hit Real.sqrt a b hd h0 hrel hm] at hres
          simp only [Option.some.injEq, Prod.mk.injEq] at hres
          have hx := congrArg Particle.x hres.1
          have hy := congrArg Particle.y hres.1
          simp only at hx hy
          have hov : 2 * radius - centreDistance Real.sqrt a b ≠ 0 := by linarith
          have hnx : normalX Real.sqrt a b = 0 := by
            have : (2 * radius - centreDistance Real.sqrt a b) * normalX Real.sqrt a b = 0 := by
              linarith
            exact (mul_eq_zero.mp this).resolve_left hov
          have hny : normalY Real.sqrt a b = 0 := by
            have : (2 * radius - centreDistance Real.sqrt a b) * normalY Real.sqrt a b = 0 := by
              linarith
            exact (mul_eq_zero.mp this).resolve_left hov
          have hunit := normal_unit a b h0
          rw [hnx, hny] at hunit
          norm_num at hunit
    · rintro ⟨h0, hrel⟩
      exact resolveCollision_skip Real.sqrt a b hd h0 hrel

/-- C4 at two particles exactly `2 * radius` apart that move towards each other: nothing
changes. -/
theorem C4_no_spurious_mutation_witness :
    resolveCollision Real.sqrt (touchA : Particle ℝ) touchB = some (touchA, touchB) :=
  (C4_no_spurious_mutation touchA touchB).1 (by rw [touch_distance]; norm_num)

/-- C5, as the claim states it, fails: in the head-on scenario the centres are `0.12` apart,
which is not below `2 * radius = 0.1`, so the call changes nothing and the `vx` values are
not exchanged. -/
theorem C5_head_on_counterexample :
    resolveCollision Real.sqrt (headOnA : Particle ℝ) headOnB = some (headOnA, headOnB) ∧
    ¬ ∃ a' b' : Particle ℝ, resolveCollision Real.sqrt headOnA headOnB = some (a', b') ∧
        a'.vx = -0.1 ∧ b'.vx = 0.1 := by
  have hres : resolveCollision Real.sqrt (headOnA : Particle ℝ) headOnB
      = some (headOnA, headOnB) := by
    apply resolveCollision_far
    rw [headOn_distance, radius]
    norm_num
  refine ⟨hres, ?_⟩
  rintro ⟨a', b', h, hvx, -⟩
  rw [hres] at h
  simp only [Option.some.injEq, Prod.mk.injEq] at h
  rw [← h.1] at hvx
  simp only [headOnA] at hvx
  norm_num at hvx

/-- C5, amended.  For A at `(-0.06, 0)` with velocity `(0.1, 0)` and B at `(0.06, 0)` with
velocity `(-0.1, 0)`, mass 1 each, one call `A.resolveCollision(B)` leaves both particles as
they were (`A.vx = 0.1`, `B.vx = -0.1`), the centre distance `0.12` being no less than
`2 * radius`.  With the same velocities and the centres at `(-0.04, 0)` and `(0.04, 0)` the
particles penetrate and the call exchanges the `vx` values: `A.vx = -0.1`, `B.vx = 0.1`. -/
theorem C5_head_on_amended :
    (resolveCollision Real.sqrt (headOnA : Particle ℝ) headOnB = some (headOnA, headOnB) ∧
      (headOnA : Particle ℝ).vx = 0.1 ∧ (headOnB : Particle ℝ).vx = -0.1) ∧
    (∃ a' b' : Particle ℝ, resolveCollision Real.sqrt closeA closeB = some (a', b') ∧
      a'.vx = -0.1 ∧ b'.vx = 0.1) := by
  constructor
  · refine ⟨?_, rfl, rfl⟩
    apply resolveCollision_far
    rw [headOn_distance, radius]
    norm_num
  · refine ⟨_, _, resolveCollision_hit Real.sqrt closeA closeB
      (by rw [close_distance, radius]; norm_num) (by rw [close_distance]; norm_num)
      (by rw [close_relVel]; norm_num) (by norm_num [closeA, closeB]), ?_, ?_⟩
    · simp only [normalX, normalY, close_distance, close_relVel]
      simp only [closeA, closeB]
      norm_num
    · simp only [normalX, normalY, close_distance, close_relVel]
      simp only [closeA, closeB]
      norm_num

/-- C10. Kinetic energy conservation: for positive masses and distinct centres the call
returns and the total kinetic energy
`1/2 * mass_this * |v_this|^2 + 1/2 * mass_other * |v_other|^2` is what it was, whether the
particles were not colliding, were skipped as separating, or received the impulse. -/
theorem C10_kinetic_energy_conserved (a b : Particle ℝ)
    (hma : 0 < a.mass) (hmb : 0 < b.mass) (hd0 : 0 < centreDistance Real.sqrt a b) :
    ∃ a' b' : Particle ℝ, resolveCollision Real.sqrt a b = some (a', b') ∧
      kineticEnergy a' b' = kineticEnergy a b := by
  have h0 : centreDistance Real.sqrt a b ≠ 0 := ne_of_gt hd0
  have hm : a.mass + b.mass ≠ 0 := ne_of_gt (add_pos hma hmb)
  by_cases hd : centreDistance Real.sqrt a b < 2 * radius
  · by_cases hrel : relVel Real.sqrt a b > 0
    · exact ⟨a, b, resolveCollision_skip Real.sqrt a b hd h0 hrel, rfl⟩
    · refine ⟨_, _, resolveCollision_hit Real.sqrt a b hd h0 hrel hm, ?_⟩
      have hunit := normal_unit a b h0
      have hJ : 2 * relVel Real.sqrt a b / (a.mass + b.mass) * (a.mass + b.mass) =
          2 * relVel Real.sqrt a b := div_mul_cancel₀ _ hm
      simp only [kineticEnergy]
      generalize 2 * relVel Real.sqrt a b / (a.mass + b.mass) = J at hJ ⊢
      simp only [relVel, relVelAlong] at hJ
      generalize normalX Real.sqrt a b = nx at hunit hJ ⊢
      generalize normalY Real.sqrt a b = ny at hunit hJ ⊢
      linear_combination (1 / 2 * J ^ 2 * a.mass * b.mass * (a.mass + b.mass)) * hunit
        + (1 / 2 * J * a.mass * b.mass) * hJ
  · exact ⟨a, b, resolveCollision_far Real.sqrt a b hd, rfl⟩

/-- C10 at `hitA` and `hitB`, where the impulse is applied. -/
theorem C10_kinetic_energy_conserved_witness :
    ∃ a' b' : Particle ℝ, resolveCollision Real.sqrt hitA hitB = some (a', b') ∧
      kineticEnergy a' b' = kineticEnergy hitA hitB :=
  C10_kinetic_energy_conserved hitA hitB (by norm_num [hitA]) (by norm_num [hitB])
    (by rw [hit_distance]; norm_num)

end Collision

section Momentum

variable {K : Type} [LinearOrderedField K]

/-- C3. Momentum conservation: whenever `resolveCollision` returns (not colliding, skipped
or resolved), the masses are what they were and the total momentum
`mass_this * v_this + mass_other * v_other` is unchanged in both components; for equal
masses `m`, `m * (vx1 + vx2)` and `m * (vy1 + vy2)` are unchanged.  This holds in every
ordered field and for every function used as the square root. -/
theorem C3_momentum_conserved (sqrt : K → K) (a b a' b' : Particle K)
    (h : resolveCollision sqrt a b = some (a', b')) :
    (a'.mass = a.mass ∧ b'.mass = b.mass) ∧
    momentumX a' b' = momentumX a b ∧ momentumY a' b' = momentumY a b ∧
    (∀ m : K, a.mass = m → b.mass = m →
      m * (a'.vx + b'.vx) = m * (a.vx + b.vx) ∧ m * (a'.vy + b'.vy) = m * (a.vy + b.vy)) := by
  have key : (a'.mass = a.mass ∧ b'.mass = b.mass) ∧
      momentumX a' b' = momentumX a b ∧ momentumY a' b' = momentumY a b := by
    by_cases hd : centreDistance sqrt a b < 2 * radius
    · by_cases h0 : centreDistance sqrt a b = 0
      · rw [resolveCollision_zero sqrt a b hd h0] at h
        exact absurd h (by simp)
      · by_cases hrel : relVel sqrt a b > 0
        · rw [resolveCollision_skip sqrt a b hd h0 hrel] at h
          simp only [Option.some.injEq, Prod.mk.injEq] at h
          obtain ⟨rfl, rfl⟩ := h
          exact ⟨⟨rfl, rfl⟩, rfl, rfl⟩
        · by_cases hm : a.mass + b.mass = 0
          · rw [resolveCollision_massless sqrt a b hd h0 hrel hm] at h
            exact absurd h (by simp)
          · rw [resolveCollision_hit sqrt a b hd h0 hrel hm] at h
            simp only [Option.some.injEq, Prod.mk.injEq] at h
            obtain ⟨rfl, rfl⟩ := h
            refine ⟨⟨rfl, rfl⟩, ?_, ?_⟩
            · simp only [momentumX]
              ring
            · simp only [momentumY]
              ring
    · rw [resolveCollision_far sqrt a b hd] at h
      simp only [Option.some.injEq, Prod.mk.injEq] at h
      obtain ⟨rfl, rfl⟩ := h
      exact ⟨⟨rfl, rfl⟩, rfl, rfl⟩
  obtain ⟨hmass, hx, hy⟩ := key
  refine ⟨hmass, hx, hy, ?_⟩
  intro m ha hb
  simp only [momentumX, momentumY, hmass.1, hmass.2, ha, hb] at hx hy
  constructor
  · linear_combination hx
  · linear_combination hy

/-- C3 at `hitA` and `hitB`, where the impulse is applied: the momentum of the result
`(hitA', hitB')` is that of `(hitA, hitB)`. -/
theorem C3_momentum_conserved_witness :
    momentumX (hitA' : Particle ℝ) hitB' = momentumX hitA hitB ∧
      momentumY (hitA' : Particle ℝ) hitB' = momentumY hitA hitB :=
  ⟨(C3_momentum_conserved Real.sqrt hitA hitB hitA' hitB' hit_result).2.1,
    (C3_momentum_conserved Real.sqrt hitA hitB hitA' hitB' hit_result).2.2.1⟩

end Momentum

section Construction

variable {K : Type} [LinearOrderedField K]

/-- A colour that leaves the loop is neither black nor white and is one of the rounds. -/
theorem sampleColor_some (draws : Nat → Int) (fuel pos : Nat) (c : Color K)
    (h : sampleColor draws fuel pos = some c) :
    ¬ isBlackOrWhite c ∧ ∃ q : Nat, c = drawColor draws q := by
  induction fuel generalizing pos with
  | zero => simp [sampleColor] at h
  | succ fuel ih =>
    simp only [sampleColor] at h
    split_ifs at h with hbw
    · exact ih (pos + 3) h
    · simp only [Option.some.injEq] at h
      subst h
      exact ⟨hbw, pos, rfl⟩

/-- The loop stops at the first round that is neither black nor white. -/
theorem sampleColor_first (draws : Nat → Int) (k : Nat) :
    ∀ fuel start : Nat,
      (∀ j : Nat, j < k → isBlackOrWhite (drawColor (K := K) draws (3 * (start + j)))) →
      ¬ isBlackOrWhite (drawColor (K := K) draws (3 * (start + k))) →
      k < fuel →
      sampleColor draws fuel (3 * start) = some (drawColor (K := K) draws (3 * (start + k))) := by
  induction k with
  | zero =>
    intro fuel start _ hgood hfuel
    obtain ⟨f, rfl⟩ : ∃ f, fuel = f + 1 := ⟨fuel - 1, by omega⟩
    simp only [Nat.add_zero] at hgood ⊢
    simp only [sampleColor, if_neg hgood]
  | succ k ih =>
    intro fuel start hbad hgood hfuel
    obtain ⟨f, rfl⟩ : ∃ f, fuel = f + 1 := ⟨fuel - 1, by omega⟩
    have h0 : isBlackOrWhite (drawColor (K := K) draws (3 * start)) := by
      simpa using hbad 0 (Nat.succ_pos k)
    have hidx : ∀ j : Nat, start + 1 + j = start + (j + 1) := by
      intro j
      omega
    have hnext := ih f (start + 1)
      (by
        intro j hj
        rw [hidx]
        exact hbad (j + 1) (by omega))
      (by
        rw [hidx]
        exact hgood)
      (by omega)
    simp only [sampleColor, if_pos h0]
    have h3 : 3 * start + 3 = 3 * (start + 1) := by ring
    rw [h3, hnext, hidx]

/-- C7. Colour invariant of construction, the random source being any stream of draws
from `{0, 1}`: whenever the constructor returns a particle, each channel of its colour is 0
or 1 and the colour is neither `(0,0,0)` nor `(1,1,1)`; and when round `k` is the first
round of three draws that is not all zero or all one, the constructor returns, after any
number of rounds above `k`, the particle whose colour is that round. -/
theorem C7_color_invariant (x y vx vy aspectRatio : K) (draws : Nat → Int)
    (h01 : ∀ i : Nat, draws i = 0 ∨ draws i = 1) :
    (∀ (fuel : Nat) (p : Particle K),
      construct x y vx vy aspectRatio draws fuel = some p →
        (p.color.r = 0 ∨ p.color.r = 1) ∧ (p.color.g = 0 ∨ p.color.g = 1) ∧
        (p.color.b = 0 ∨ p.color.b = 1) ∧
        ¬ (p.color.r = 0 ∧ p.color.g = 0 ∧ p.color.b = 0) ∧
        ¬ (p.color.r = 1 ∧ p.color.g = 1 ∧ p.color.b = 1)) ∧
    (∀ k : Nat,
      (∀ j : Nat, j < k → isBlackOrWhite (drawColor (K := K) draws (3 * j))) →
      ¬ isBlackOrWhite (drawColor (K := K) draws (3 * k)) →
      ∀ fuel : Nat, k < fuel →
        ∃ p : Particle K, construct x y vx vy aspectRatio draws fuel = some p ∧
          p.color = drawColor draws (3 * k)) := by
  have hcast : ∀ i : Nat, ((draws i : Int) : K) = 0 ∨ ((draws i : Int) : K) = 1 := by
    intro i
    rcases h01 i with h | h
    · left
      rw [h]
      norm_num
    · right
      rw [h]
      norm_num
  constructor
  · intro fuel p hp
    simp only [construct, Option.map_eq_some'] at hp
    obtain ⟨c, hc, rfl⟩ := hp
    obtain ⟨hbw, q, rfl⟩ := sampleColor_some draws fuel 0 c hc
    simp only [isBlackOrWhite, not_or] at hbw
    exact ⟨hcast q, hcast (q + 1), hcast (q + 2), hbw.1, hbw.2⟩
  · intro k hbad hgood fuel hfuel
    have hrun := sampleColor_first (K := K) draws k fuel 0
      (by
        intro j hj
        rw [Nat.zero_add]
        exact hbad j hj)
      (by
        rw [Nat.zero_add]
        exact hgood)
      hfuel
    rw [Nat.mul_zero, Nat.zero_add] at hrun
    have hc : construct x y vx vy aspectRatio draws fuel =
        some (Particle.mk x y vx vy aspectRatio 1.0 (drawColor draws (3 * k))) := by
      simp only [construct, hrun, Option.map_some']
    exact ⟨_, hc, rfl⟩

/-- C7 at a stream whose first round is `(0,0,0)` and whose second is `(0,1,0)`: with fuel
for two rounds the constructor returns a particle of the second round's colour. -/
theorem C7_color_invariant_witness :
    ∃ p : Particle ℚ, construct 0 0 0 0 1 sampleDraws 2 = some p ∧
      p.color = drawColor sampleDraws (3 * 1) :=
  (C7_color_invariant (0 : ℚ) 0 0 0 1 sampleDraws
    (by
      intro i
      simp only [sampleDraws]
      split_ifs
      · right
        rfl
      · left
        rfl)).2 1
    (by
      intro j hj
      obtain rfl : j = 0 := by omega
      simp [isBlackOrWhite, drawColor, sampleDraws])
    (by simp [isBlackOrWhite, drawColor, sampleDraws])
    2 (by norm_num)

end Construction

section CollisionPass

/-- An element of a list without duplicates occurs in it once. -/
theorem count_eq_one_of_nodup {α : Type} [BEq α] [LawfulBEq α] (a : α) :
    ∀ l : List α, l.Nodup → a ∈ l → l.count a = 1 := by
  intro l
  induction l with
  | nil =>
    intro _ h
    exact absurd h (List.not_mem_nil a)
  | cons b l ih =>
    intro hnd hmem
    rw [List.nodup_cons] at hnd
    rw [List.count_cons]
    by_cases hba : b = a
    · subst hba
      rw [List.count_eq_zero_of_not_mem hnd.1]
      simp
    · have hin : a ∈ l := by
        rcases List.mem_cons.mp hmem with h | h
        · exact absurd h.symm hba
        · exact h
      rw [ih hnd.2 hin]
      simp [hba]

theorem mem_innerLoop (n i : Nat) (p : Nat × Nat) :
    ∀ (m j : Nat), n - j = m → (p ∈ innerLoop n i j ↔ p.1 = i ∧ j ≤ p.2 ∧ p.2 < n) := by
  intro m
  induction m with
  | zero =>
    intro j hj
    rw [innerLoop, if_neg (by omega)]
    simp only [List.not_mem_nil, false_iff, not_and, not_lt]
    intro _ hle
    omega
  | succ m ih =>
    intro j hj
    rw [innerLoop, if_pos (by omega), List.mem_cons, ih (j + 1) (by omega)]
    constructor
    · rintro (rfl | ⟨h1, h2, h3⟩)
      · exact ⟨rfl, le_refl _, by omega⟩
      · exact ⟨h1, by omega, h3⟩
    · rintro ⟨h1, h2, h3⟩
      by_cases hj2 : p.2 = j
      · left
        exact Prod.ext h1 hj2
      · right
        exact ⟨h1, by omega, h3⟩

theorem nodup_innerLoop (n i : Nat) :
    ∀ (m j : Nat), n - j = m → (innerLoop n i j).Nodup := by
  intro m
  induction m with
  | zero =>
    intro j hj
    rw [innerLoop, if_neg (by omega)]
    exact List.nodup_nil
  | succ m ih =>
    intro j hj
    rw [innerLoop, if_pos (by omega), List.nodup_cons]
    refine ⟨?_, ih (j + 1) (by omega)⟩
    rw [mem_innerLoop n i (i, j) m (j + 1) (by omega)]
    simp

theorem length_innerLoop (n i : Nat) :
    ∀ (m j : Nat), n - j = m → (innerLoop n i j).length = n - j := by
  intro m
  induction m with
  | zero =>
    intro j hj
    rw [innerLoop, if_neg (by omega), List.length_nil]
    omega
  | succ m ih =>
    intro j hj
    rw [innerLoop, if_pos (by omega), List.length_cons, ih (j + 1) (by omega)]
    omega

theorem mem_outerLoop (n : Nat) (p : Nat × Nat) :
    ∀ (m i : Nat), n - i = m → (p ∈ outerLoop n i ↔ i ≤ p.1 ∧ p.1 < p.2 ∧ p.2 < n) := by
  intro m
  induction m with
  | zero =>
    intro i hi
    rw [outerLoop, if_neg (by omega)]
    simp only [List.not_mem_nil, false_iff, not_and, not_lt]
    intro _ _
    omega
  | succ m ih =>
    intro i hi
    rw [outerLoop, if_pos (by omega), List.mem_append,
      mem_innerLoop n i p (n - (i + 1)) (i + 1) rfl, ih (i + 1) (by omega)]
    constructor
    · rintro (⟨h1, h2, h3⟩ | ⟨h1, h2, h3⟩)
      · exact ⟨by omega, by omega, h3⟩
      · exact ⟨by omega, h2, h3⟩
    · rintro ⟨h1, h2, h3⟩
      by_cases hi1 : p.1 = i
      · left
        exact ⟨hi1, by omega, h3⟩
      · right
        exact ⟨by omega, h2, h3⟩

theorem nodup_outerLoop (n : Nat) :
    ∀ (m i : Nat), n - i = m → (outerLoop n i).Nodup := by
  intro m
  induction m with
  | zero =>
    intro i hi
    rw [outerLoop, if_neg (by omega)]
    exact List.nodup_nil
  | succ m ih =>
    intro i hi
    rw [outerLoop, if_pos (by omega), List.nodup_append]
    refine ⟨nodup_innerLoop n i _ (i + 1) rfl, ih (i + 1) (by omega), ?_⟩
    intro p hp1 hp2
    rw [mem_innerLoop n i p _ (i + 1) rfl] at hp1
    rw [mem_outerLoop n p _ (i + 1) rfl] at hp2
    omega

theorem length_outerLoop (n : Nat) :
    ∀ (m i : Nat), n - i = m → 2 * (outerLoop n i).length = (n - i) * (n - i - 1) := by
  intro m
  induction m with
  | zero =>
    intro i hi
    rw [outerLoop, if_neg (by omega), List.length_nil, hi]
  | succ m ih =>
    intro i hi
    rw [outerLoop, if_pos (by omega), List.length_append,
      length_innerLoop n i _ (i + 1) rfl, Nat.mul_add, ih (i + 1) (by omega)]
    have h1 : n - i = m + 1 := hi
    have h2 : n - (i + 1) = m := by omega
    rw [h1, h2]
    cases m with
    | zero => rfl
    | succ m =>
      simp only [Nat.add_sub_cancel]
      ring

/-- C8. The collision pass visits every unordered pair exactly once: for every population
size `n`, the list of index pairs `(i, j)` of the calls
`particles[i].resolveCollision(particles[j])` contains a pair exactly when `i < j < n`,
contains each such pair once, contains no pair with `j ≤ i`, and has `n * (n - 1) / 2`
entries. -/
theorem C8_collision_pass_pairs (n : Nat) :
    (∀ i j : Nat, (i, j) ∈ collisionCalls n ↔ i < j ∧ j < n) ∧
    (∀ i j : Nat, i < j → j < n → (collisionCalls n).count (i, j) = 1) ∧
    (∀ i j : Nat, j ≤ i → (collisionCalls n).count (i, j) = 0) ∧
    (collisionCalls n).Nodup ∧
    (collisionCalls n).length = n * (n - 1) / 2 := by
  have hmem : ∀ i j : Nat, (i, j) ∈ collisionCalls n ↔ i < j ∧ j < n := by
    intro i j
    rw [collisionCalls, mem_outerLoop n (i, j) n 0 rfl]
    simp
  have hnodup : (collisionCalls n).Nodup := nodup_outerLoop n n 0 rfl
  refine ⟨hmem, ?_, ?_, hnodup, ?_⟩
  · intro i j hij hjn
    exact count_eq_one_of_nodup (i, j) _ hnodup ((hmem i j).mpr ⟨hij, hjn⟩)
  · intro i j hji
    apply List.count_eq_zero_of_not_mem
    rw [hmem]
    omega
  · have hlen := length_outerLoop n n 0 rfl
    rw [Nat.sub_zero] at hlen
    rw [collisionCalls, ← hlen, Nat.mul_div_cancel_left _ (by norm_num : 0 < 2)]

end CollisionPass

section AspectRatio

variable {K : Type} [LinearOrderedField K]

/-- C11. `updateAspectRatio` does not reposition: it sets `aspectRatio` to the new ratio and
leaves `x`, `y`, `vx`, `vy`, `mass` and `color` as they were, wherever the position is; so a
position outside the bounds of the new ratio stays outside.  For a positive new ratio the
next call of `update` puts the position within the new bounds. -/
theorem C11_updateAspectRatio_keeps_position (p : Particle K) (newAspectRatio : K) :
    updateAspectRatio p newAspectRatio = { p with aspectRatio := newAspectRatio } ∧
    ((updateAspectRatio p newAspectRatio).aspectRatio = newAspectRatio ∧
      (updateAspectRatio p newAspectRatio).x = p.x ∧
      (updateAspectRatio p newAspectRatio).y = p.y ∧
      (updateAspectRatio p newAspectRatio).vx = p.vx ∧
      (updateAspectRatio p newAspectRatio).vy = p.vy ∧
      (updateAspectRatio p newAspectRatio).mass = p.mass ∧
      (updateAspectRatio p newAspectRatio).color = p.color) ∧
    (newAspectRatio - 0.05 * newAspectRatio < |p.x| →
      newAspectRatio - 0.05 * newAspectRatio < |(updateAspectRatio p newAspectRatio).x|) ∧
    (0 < newAspectRatio → ∀ dt : K,
      |(update (updateAspectRatio p newAspectRatio) dt).x| ≤
        newAspectRatio - 0.05 * newAspectRatio ∧
      |(update (updateAspectRatio p newAspectRatio) dt).y| ≤ 1 - 0.05) := by
  refine ⟨rfl, ⟨rfl, rfl, rfl, rfl, rfl, rfl, rfl⟩, fun h => h, ?_⟩
  intro hpos dt
  exact update_bounds (updateAspectRatio p newAspectRatio) dt hpos

/-- C11 at the particle `outsideParticle` (at `x = 7`, ratio 2) and the new ratio 1: the
setter leaves it at `x = 7`, outside the new bound `0.95`, and the next `update` with
`dt = 0` brings it to `x = 0.95`. -/
theorem C11_updateAspectRatio_keeps_position_witness :
    (updateAspectRatio (outsideParticle : Particle ℚ) 1).x = 7 ∧
    (update (updateAspectRatio (outsideParticle : Particle ℚ) 1) 0).x = 19 / 20 ∧
    |(update (updateAspectRatio (outsideParticle : Particle ℚ) 1) 0).x| ≤ 1 - 0.05 * 1 :=
  ⟨(C11_updateAspectRatio_keeps_position (outsideParticle : Particle ℚ) 1).2.1.2.1,
    by norm_num [update, updateAspectRatio, handleBoundaryCollision, outsideParticle, radius,
      GRAVITY],
    ((C11_updateAspectRatio_keeps_position (outsideParticle : Particle ℚ) 1).2.2.2
      (by norm_num) 0).1⟩

/-- The resize callback changes the aspect ratio of every particle and nothing else. -/
theorem framebuffer_size_callback_eq (particles : List (Particle K)) (width height : Int)
    (h : (height : K) ≠ 0) :
    framebuffer_size_callback particles width height =
      some (particles.map fun p => { p with aspectRatio := (width : K) / (height : K) }) := by
  simp only [framebuffer_size_callback, if_neg h, updateAspectRatio]

end AspectRatio

section Skip

/-- C12. The separating branch is a full skip: when the particles penetrate
(`0 < distance < 2 * 0.05`) and `relVel > 0`, the call returns both particles exactly as
they were: no impulse and no separation. -/
theorem C12_separating_is_full_skip (a b : Particle ℝ)
    (hd0 : 0 < centreDistance Real.sqrt a b)
    (hd : centreDistance Real.sqrt a b < 2 * 0.05)
    (hrel : 0 < relVel Real.sqrt a b) :
    resolveCollision Real.sqrt a b = some (a, b) := by
  apply resolveCollision_skip Real.sqrt a b _ (ne_of_gt hd0) hrel
  simpa only [radius] using hd

theorem apart_distance : centreDistance Real.sqrt (apartA : Particle ℝ) apartB = 0.06 := by
  simp only [centreDistance, apartA, apartB]
  rw [Real.sqrt_eq_iff_mul_self_eq] <;> norm_num

theorem apart_relVel : relVel Real.sqrt (apartA : Particle ℝ) apartB = 0.2 := by
  simp only [relVel, relVelAlong, normalX, normalY, apart_distance]
  simp only [apartA, apartB]
  norm_num

theorem apart_result :
    resolveCollision Real.sqrt (apartA : Particle ℝ) apartB = some (apartA, apartB) :=
  resolveCollision_skip Real.sqrt apartA apartB (by rw [apart_distance, radius]; norm_num)
    (by rw [apart_distance]; norm_num) (by rw [apart_relVel]; norm_num)

/-- C12 at `apartA` and `apartB`, which are `0.06` apart and separate with
`relVel = 0.2`. -/
theorem C12_separating_is_full_skip_witness :
    resolveCollision Real.sqrt (apartA : Particle ℝ) apartB = some (apartA, apartB) :=
  C12_separating_is_full_skip apartA apartB (by rw [apart_distance]; norm_num)
    (by rw [apart_distance]; norm_num) (by rw [apart_relVel]; norm_num)

/-- C13, as the claim states it, fails: `apartA` and `apartB` penetrate (they are `0.06`
apart) and separate (`relVel = 0.2 > 0`); the call returns them where they were, at `x = 0`
and `x = 0.06`, not moved by half the overlap along the normal. -/
theorem C13_deoverlap_counterexample :
    (0 < centreDistance Real.sqrt (apartA : Particle ℝ) apartB ∧
      centreDistance Real.sqrt (apartA : Particle ℝ) apartB < 2 * 0.05) ∧
    resolveCollision Real.sqrt (apartA : Particle ℝ) apartB = some (apartA, apartB) ∧
    ¬ ∃ a' b' : Particle ℝ, resolveCollision Real.sqrt apartA apartB = some (a', b') ∧
        a'.x = (apartA : Particle ℝ).x
          - (2 * 0.05 - centreDistance Real.sqrt (apartA : Particle ℝ) apartB)
            * normalX Real.sqrt (apartA : Particle ℝ) apartB / 2 ∧
        b'.x = (apartB : Particle ℝ).x
          + (2 * 0.05 - centreDistance Real.sqrt (apartA : Particle ℝ) apartB)
            * normalX Real.sqrt (apartA : Particle ℝ) apartB / 2 := by
  refine ⟨⟨by rw [apart_distance]; norm_num, by rw [apart_distance]; norm_num⟩,
    apart_result, ?_⟩
  rintro ⟨a', b', h, hx, -⟩
  rw [apart_result] at h
  simp only [Option.some.injEq, Prod.mk.injEq] at h
  rw [← h.1] at hx
  simp only [normalX, apart_distance] at hx
  simp only [apartA, apartB] at hx
  norm_num at hx

/-- C13, amended.  Positional de-overlap of approaching particles: for a penetrating pair
(`0 < distance < 2 * 0.05`) with `relVel ≤ 0` the call moves this particle by
`-overlap / 2 * n` and the other by `+overlap / 2 * n`, where
`overlap = 2 * 0.05 - distance` and `n` is the normal; with `relVel > 0` the call moves
neither particle. -/
theorem C13_deoverlap_when_approaching (a b : Particle ℝ)
    (hd0 : 0 < centreDistance Real.sqrt a b)
    (hd : centreDistance Real.sqrt a b < 2 * 0.05)
    (hm : a.mass + b.mass ≠ 0) :
    (relVel Real.sqrt a b ≤ 0 →
      ∃ a' b' : Particle ℝ, resolveCollision Real.sqrt a b = some (a', b') ∧
        a'.x = a.x - (2 * 0.05 - centreDistance Real.sqrt a b) * normalX Real.sqrt a b / 2 ∧
        a'.y = a.y - (2 * 0.05 - centreDistance Real.sqrt a b) * normalY Real.sqrt a b / 2 ∧
        b'.x = b.x + (2 * 0.05 - centreDistance Real.sqrt a b) * normalX Real.sqrt a b / 2 ∧
        b'.y = b.y + (2 * 0.05 - centreDistance Real.sqrt a b) * normalY Real.sqrt a b / 2) ∧
    (0 < relVel Real.sqrt a b →
      ∃ a' b' : Particle ℝ, resolveCollision Real.sqrt a b = some (a', b') ∧
        a'.x = a.x ∧ a'.y = a.y ∧ b'.x = b.x ∧ b'.y = b.y) := by
  have h0 : centreDistance Real.sqrt a b ≠ 0 := ne_of_gt hd0
  have hd' : centreDistance Real.sqrt a b < 2 * radius := by
    simpa only [radius] using hd
  constructor
  · intro hrel
    refine ⟨_, _, resolveCollision_hit Real.sqrt a b hd' h0 (not_lt.mpr hrel) hm, ?_, ?_, ?_, ?_⟩
      <;> simp only [radius]
  · intro hrel
    exact ⟨a, b, resolveCollision_skip Real.sqrt a b hd' h0 hrel, rfl, rfl, rfl, rfl⟩

/-- C13 (amended) at `hitA` and `hitB`, `0.05` apart and approaching: `hitA` ends at
`(-0.015, -0.02)` and `hitB` at `(0.045, 0.06)`. -/
theorem C13_deoverlap_when_approaching_witness :
    ∃ a' b' : Particle ℝ, resolveCollision Real.sqrt hitA hitB = some (a', b') ∧
      a'.x = (hitA : Particle ℝ).x
        - (2 * 0.05 - centreDistance Real.sqrt (hitA : Particle ℝ) hitB)
          * normalX Real.sqrt (hitA : Particle ℝ) hitB / 2 ∧
      a'.y = (hitA : Particle ℝ).y
        - (2 * 0.05 - centreDistance Real.sqrt (hitA : Particle ℝ) hitB)
          * normalY Real.sqrt (hitA : Particle ℝ) hitB / 2 ∧
      b'.x = (hitB : Particle ℝ).x
        + (2 * 0.05 - centreDistance Real.sqrt (hitA : Particle ℝ) hitB)
          * normalX Real.sqrt (hitA : Particle ℝ) hitB / 2 ∧
      b'.y = (hitB : Particle ℝ).y
        + (2 * 0.05 - centreDistance Real.sqrt (hitA : Particle ℝ) hitB)
          * normalY Real.sqrt (hitA : Particle ℝ) hitB / 2 :=
  (C13_deoverlap_when_approaching hitA hitB (by rw [hit_distance]; norm_num)
    (by rw [hit_distance]; norm_num) (by norm_num [hitA, hitB])).1
    (by rw [hit_relVel]; norm_num)

end Skip

section Failure

/-- The centre distance is zero exactly when the two centres coincide. -/
theorem centreDistance_eq_zero_iff (a b : Particle ℝ) :
    centreDistance Real.sqrt a b = 0 ↔ a.x = b.x ∧ a.y = b.y := by
  simp only [centreDistance]
  rw [Real.sqrt_eq_zero (add_nonneg (mul_self_nonneg _) (mul_self_nonneg _)),
    mul_self_add_mul_self_eq_zero, sub_eq_zero, sub_eq_zero]
  constructor
  · rintro ⟨h1, h2⟩
    exact ⟨h1.symm, h2.symm⟩
  · rintro ⟨h1, h2⟩
    exact ⟨h1.symm, h2.symm⟩

/-- The call fails exactly when a divisor is zero: the distance inside the collision
branch, or the sum of the masses when the impulse is computed. -/
theorem resolveCollision_eq_none_iff (a b : Particle ℝ) :
    resolveCollision Real.sqrt a b = none ↔
      centreDistance Real.sqrt a b = 0 ∨
      (centreDistance Real.sqrt a b < 2 * radius ∧ ¬ relVel Real.sqrt a b > 0 ∧
        a.mass + b.mass = 0) := by
  have hr : (0 : ℝ) < 2 * radius := by
    simp only [radius]
    norm_num
  by_cases hd : centreDistance Real.sqrt a b < 2 * radius
  · by_cases h0 : centreDistance Real.sqrt a b = 0
    · simp only [resolveCollision_zero Real.sqrt a b hd h0, h0, true_or]
    · by_cases hrel : relVel Real.sqrt a b > 0
      · rw [resolveCollision_skip Real.sqrt a b hd h0 hrel]
        simp [h0, hrel]
      · by_cases hm : a.mass + b.mass = 0
        · rw [resolveCollision_massless Real.sqrt a b hd h0 hrel hm]
          simp [hd, hrel, hm]
        · rw [resolveCollision_hit Real.sqrt a b hd h0 hrel hm]
          simp [h0, hm]
  · rw [resolveCollision_far Real.sqrt a b hd]
    have h0 : centreDistance Real.sqrt a b ≠ 0 := by
      intro h
      rw [h] at hd
      exact hd hr
    simp [h0, hd]

/-- C14. Division by zero happens exactly at coincident centres: for particles of mass 1
each, `resolveCollision` fails on a zero divisor if and only if the distance is 0, that is
if and only if the two centres coincide; with distinct centres both divisors, `distance`
and `mass + other.mass`, are non-zero and the call returns. -/
theorem C14_failure_iff_coincident (a b : Particle ℝ) (hma : a.mass = 1) (hmb : b.mass = 1) :
    (resolveCollision Real.sqrt a b = none ↔ centreDistance Real.sqrt a b = 0) ∧
    (centreDistance Real.sqrt a b = 0 ↔ a.x = b.x ∧ a.y = b.y) ∧
    (centreDistance Real.sqrt a b ≠ 0 →
      a.mass + b.mass ≠ 0 ∧
      ∃ a' b' : Particle ℝ, resolveCollision Real.sqrt a b = some (a', b')) := by
  have hm : a.mass + b.mass ≠ 0 := by
    rw [hma, hmb]
    norm_num
  have hiff : resolveCollision Real.sqrt a b = none ↔ centreDistance Real.sqrt a b = 0 := by
    rw [resolveCollision_eq_none_iff]
    constructor
    · rintro (h | ⟨-, -, h⟩)
      · exact h
      · exact absurd h hm
    · intro h
      exact Or.inl h
  refine ⟨hiff, centreDistance_eq_zero_iff a b, ?_⟩
  intro h0
  refine ⟨hm, ?_⟩
  have hne : resolveCollision Real.sqrt a b ≠ none := fun h => h0 (hiff.mp h)
  obtain ⟨r, hr⟩ := Option.ne_none_iff_exists'.mp hne
  exact ⟨r.1, r.2, hr⟩

/-- C14 at `stackedA` and `stackedB`, both at the origin: the call fails; and at `hitA` and
`hitB`, whose centres differ: the call returns. -/
theorem C14_failure_iff_coincident_witness :
    resolveCollision Real.sqrt (stackedA : Particle ℝ) stackedB = none ∧
    ∃ a' b' : Particle ℝ, resolveCollision Real.sqrt hitA hitB = some (a', b') :=
  ⟨(C14_failure_iff_coincident stackedA stackedB rfl rfl).1.mpr
      ((C14_failure_iff_coincident stackedA stackedB rfl rfl).2.1.mpr ⟨rfl, rfl⟩),
    ((C14_failure_iff_coincident hitA hitB rfl rfl).2.2
      (by rw [hit_distance]; norm_num)).2⟩

end Failure

section Reflection

variable {K : Type} [LinearOrderedField K]

/-- The horizontal velocity after the boundary handling, case by case. -/
theorem handleBoundaryCollision_vx (p : Particle K) :
    (handleBoundaryCollision p).vx =
      if p.x < -p.aspectRatio + radius * p.aspectRatio then |p.vx|
      else if p.x > p.aspectRatio - radius * p.aspectRatio then -|p.vx|
      else p.vx := by
  simp only [handleBoundaryCollision]
  split_ifs <;> rfl

/-- The vertical velocity after the boundary handling, case by case. -/
theorem handleBoundaryCollision_vy (p : Particle K) :
    (handleBoundaryCollision p).vy =
      if p.y < -1 + radius then |p.vy|
      else if p.y > 1 - radius then -|p.vy|
      else p.vy := by
  simp only [handleBoundaryCollision]
  split_ifs <;> rfl

/-- C15. Boundary reflection is elastic and forces the sign: for a positive aspect ratio
`handleBoundaryCollision` preserves `|vx|` and `|vy|`; left of the left bound it sets
`x = -aspectRatio + 0.05 * aspectRatio` and `vx = |vx|`, right of the right bound
`x = aspectRatio - 0.05 * aspectRatio` and `vx = -|vx|`, below `-0.95` it sets `y = -0.95`
and `vy = |vy|`, above `0.95` it sets `y = 0.95` and `vy = -|vy|`; an axis within its bounds
keeps its position and its velocity. -/
theorem C15_boundary_reflection (p : Particle K) (har : 0 < p.aspectRatio) :
    (|(handleBoundaryCollision p).vx| = |p.vx| ∧ |(handleBoundaryCollision p).vy| = |p.vy|) ∧
    (p.x < -p.aspectRatio + 0.05 * p.aspectRatio →
      (handleBoundaryCollision p).x = -p.aspectRatio + 0.05 * p.aspectRatio ∧
      (handleBoundaryCollision p).vx = |p.vx|) ∧
    (p.x > p.aspectRatio - 0.05 * p.aspectRatio →
      (handleBoundaryCollision p).x = p.aspectRatio - 0.05 * p.aspectRatio ∧
      (handleBoundaryCollision p).vx = -|p.vx|) ∧
    (p.y < -0.95 →
      (handleBoundaryCollision p).y = -0.95 ∧ (handleBoundaryCollision p).vy = |p.vy|) ∧
    (p.y > 0.95 →
      (handleBoundaryCollision p).y = 0.95 ∧ (handleBoundaryCollision p).vy = -|p.vy|) ∧
    (-p.aspectRatio + 0.05 * p.aspectRatio ≤ p.x →
      p.x ≤ p.aspectRatio - 0.05 * p.aspectRatio →
      (handleBoundaryCollision p).x = p.x ∧ (handleBoundaryCollision p).vx = p.vx) ∧
    (-0.95 ≤ p.y → p.y ≤ 0.95 →
      (handleBoundaryCollision p).y = p.y ∧ (handleBoundaryCollision p).vy = p.vy) := by
  have hlo : (-1 : K) + 0.05 = -0.95 := by norm_num
  have hhi : (1 : K) - 0.05 = 0.95 := by norm_num
  rw [handleBoundaryCollision_x, handleBoundaryCollision_y, handleBoundaryCollision_vx,
    handleBoundaryCollision_vy]
  simp only [radius, hlo, hhi]
  refine ⟨⟨?_, ?_⟩, ?_, ?_, ?_, ?_, ?_, ?_⟩
  · split_ifs
    · exact abs_abs _
    · rw [abs_neg, abs_abs]
    · rfl
  · split_ifs
    · exact abs_abs _
    · rw [abs_neg, abs_abs]
    · rfl
  · intro h
    rw [if_pos h, if_pos h]
    exact ⟨rfl, rfl⟩
  · intro h
    have hnot : ¬ p.x < -p.aspectRatio + 0.05 * p.aspectRatio := by
      intro hlt
      linarith
    rw [if_neg hnot, if_pos h, if_neg hnot, if_pos h]
    exact ⟨rfl, rfl⟩
  · intro h
    rw [if_pos h, if_pos h]
    exact ⟨rfl, rfl⟩
  · intro h
    have hnot : ¬ p.y < -0.95 := by
      intro hlt
      have : (-0.95 : K) < 0.95 := by norm_num
      linarith
    rw [if_neg hnot, if_pos h, if_neg hnot, if_pos h]
    exact ⟨rfl, rfl⟩
  · intro h1 h2
    rw [if_neg (not_lt.mpr h1), if_neg (not_lt.mpr h2), if_neg (not_lt.mpr h1),
      if_neg (not_lt.mpr h2)]
    exact ⟨rfl, rfl⟩
  · intro h1 h2
    rw [if_neg (not_lt.mpr h1), if_neg (not_lt.mpr h2), if_neg (not_lt.mpr h1),
      if_neg (not_lt.mpr h2)]
    exact ⟨rfl, rfl⟩

/-- C15 at `outsideParticle`, at `(7, -3)` with velocity `(1, 2)` and aspect ratio 2: it is
right of the right bound and below the bottom bound, and ends at `(1.9, -0.95)` with
velocity `(-1, 2)`. -/
theorem C15_boundary_reflection_witness :
    ((handleBoundaryCollision (outsideParticle : Particle ℚ)).x = 19 / 10 ∧
      (handleBoundaryCollision (outsideParticle : Particle ℚ)).vx = -1) ∧
    ((handleBoundaryCollision (outsideParticle : Particle ℚ)).y = -19 / 20 ∧
      (handleBoundaryCollision (outsideParticle : Particle ℚ)).vy = 2) := by
  have h := C15_boundary_reflection (outsideParticle : Particle ℚ)
    (by norm_num [outsideParticle])
  have hx := h.2.2.1 (by norm_num [outsideParticle])
  have hy := h.2.2.2.1 (by norm_num [outsideParticle])
  simp only [outsideParticle] at hx hy ⊢
  norm_num at hx hy ⊢
  exact ⟨hx, hy⟩

/-- C17. Semi-implicit Euler step: when the integrated position lies within the bounds, so
that no clamp fires, `update(dt)` yields `vy' = vy + GRAVITY * dt` with `GRAVITY = -1`,
`vx' = vx`, `x' = x + vx * dt` and `y' = y + vy' * dt`, the position using the velocity
already updated; nothing else changes and no damping enters either velocity component. -/
theorem C17_semi_implicit_euler (p : Particle K) (dt : K)
    (hx1 : -p.aspectRatio + 0.05 * p.aspectRatio ≤ p.x + p.vx * dt)
    (hx2 : p.x + p.vx * dt ≤ p.aspectRatio - 0.05 * p.aspectRatio)
    (hy1 : -1 + 0.05 ≤ p.y + (p.vy + -1 * dt) * dt)
    (hy2 : p.y + (p.vy + -1 * dt) * dt ≤ 1 - 0.05) :
    (GRAVITY : K) = -1 ∧
    (update p dt).vy = p.vy + GRAVITY * dt ∧
    (update p dt).vx = p.vx ∧
    (update p dt).x = p.x + p.vx * dt ∧
    (update p dt).y = p.y + (update p dt).vy * dt ∧
    update p dt =
      { p with vy := p.vy + -1 * dt, x := p.x + p.vx * dt, y := p.y + (p.vy + -1 * dt) * dt } := by
  have hG : (GRAVITY : K) = -1 := by
    simp only [GRAVITY]
    norm_num
  have hupd : update p dt =
      { p with vy := p.vy + -1 * dt, x := p.x + p.vx * dt,
               y := p.y + (p.vy + -1 * dt) * dt } := by
    simp only [update, hG]
    apply handleBoundaryCollision_inside
    · simpa only [radius, not_lt] using hx1
    · simpa only [radius, not_lt, gt_iff_lt] using hx2
    · simpa only [radius, not_lt] using hy1
    · simpa only [radius, not_lt, gt_iff_lt] using hy2
  refine ⟨hG, ?_, ?_, ?_, ?_, hupd⟩
  · rw [hupd, hG]
  · rw [hupd]
  · rw [hupd]
  · rw [hupd]

/-- C17 at the falling particle, at `(0, 0.9)` and at rest, with `dt = 0.016`: after the
call `vy = -0.016` and `y = 0.9 - 0.016 * 0.016`. -/
theorem C17_semi_implicit_euler_witness :
    (update (fallingParticle : Particle ℚ) 0.016).vy = -0.016 ∧
    (update (fallingParticle : Particle ℚ) 0.016).y = 0.9 - 0.016 * 0.016 := by
  have h := C17_semi_implicit_euler (fallingParticle : Particle ℚ) 0.016
    (by norm_num [fallingParticle]) (by norm_num [fallingParticle])
    (by norm_num [fallingParticle]) (by norm_num [fallingParticle])
  rw [h.2.2.2.2.2]
  simp only [fallingParticle]
  norm_num

end Reflection

section Symmetry

theorem normalX_comm (a b : Particle ℝ) :
    normalX Real.sqrt b a = -normalX Real.sqrt a b := by
  simp only [normalX, centreDistance_comm b a]
  ring

theorem normalY_comm (a b : Particle ℝ) :
    normalY Real.sqrt b a = -normalY Real.sqrt a b := by
  simp only [normalY, centreDistance_comm b a]
  ring

/-- Calling with the roles exchanged gives the same two particles, exchanged. -/
theorem resolveCollision_swap (a b : Particle ℝ) :
    resolveCollision Real.sqrt b a = (resolveCollision Real.sqrt a b).map Prod.swap := by
  by_cases hd : centreDistance Real.sqrt a b < 2 * radius
  · have hd' : centreDistance Real.sqrt b a < 2 * radius := by
      rw [centreDistance_comm b a]
      exact hd
    by_cases h0 : centreDistance Real.sqrt a b = 0
    · have h0' : centreDistance Real.sqrt b a = 0 := by
        rw [centreDistance_comm b a]
        exact h0
      rw [resolveCollision_zero Real.sqrt a b hd h0, resolveCollision_zero Real.sqrt b a hd' h0']
      rfl
    · have h0' : centreDistance Real.sqrt b a ≠ 0 := by
        rw [centreDistance_comm b a]
        exact h0
      by_cases hrel : relVel Real.sqrt a b > 0
      · have hrel' : relVel Real.sqrt b a > 0 := by
          rw [relVel_comm a b]
          exact hrel
        rw [resolveCollision_skip Real.sqrt a b hd h0 hrel,
          resolveCollision_skip Real.sqrt b a hd' h0' hrel']
        rfl
      · have hrel' : ¬ relVel Real.sqrt b a > 0 := by
          rw [relVel_comm a b]
          exact hrel
        by_cases hm : a.mass + b.mass = 0
        · have hm' : b.mass + a.mass = 0 := by
            rw [add_comm]
            exact hm
          rw [resolveCollision_massless Real.sqrt a b hd h0 hrel hm,
            resolveCollision_massless Real.sqrt b a hd' h0' hrel' hm']
          rfl
        · have hm' : b.mass + a.mass ≠ 0 := by
            rw [add_comm]
            exact hm
          rw [resolveCollision_hit Real.sqrt a b hd h0 hrel hm,
            resolveCollision_hit Real.sqrt b a hd' h0' hrel' hm']
          rw [relVel_comm a b, normalX_comm a b, normalY_comm a b, centreDistance_comm b a,
            add_comm b.mass a.mass]
          simp only [Option.map_some', Prod.swap, Option.some.injEq, Prod.mk.injEq,
            Particle.mk.injEq, and_true, true_and]
          refine ⟨⟨?_, ?_, ?_, ?_⟩, ?_, ?_, ?_, ?_⟩ <;> ring
  · have hd' : ¬ centreDistance Real.sqrt b a < 2 * radius := by
      rw [centreDistance_comm b a]
      exact hd
    rw [resolveCollision_far Real.sqrt a b hd, resolveCollision_far Real.sqrt b a hd']
    rfl

/-- C18. Receiver and argument are interchangeable: `b.resolveCollision(a)` gives what
`a.resolveCollision(b)` gives, with the two particles exchanged; in particular, for
distinct centres and masses that do not sum to zero both calls return, with the same final
state for `a` and the same final state for `b`. -/
theorem C18_receiver_symmetry (a b : Particle ℝ) :
    resolveCollision Real.sqrt b a = (resolveCollision Real.sqrt a b).map Prod.swap ∧
    (centreDistance Real.sqrt a b ≠ 0 → a.mass + b.mass ≠ 0 →
      ∃ a' b' : Particle ℝ, resolveCollision Real.sqrt a b = some (a', b') ∧
        resolveCollision Real.sqrt b a = some (b', a')) := by
  refine ⟨resolveCollision_swap a b, ?_⟩
  intro h0 hm
  obtain ⟨a', b', h1, -⟩ := resolveCollision_twice a b h0 hm
  refine ⟨a', b', h1, ?_⟩
  rw [resolveCollision_swap a b, h1]
  rfl

/-- C18 at `hitA` and `hitB`: with `hitB` as receiver the call gives `(hitB', hitA')`. -/
theorem C18_receiver_symmetry_witness :
    resolveCollision Real.sqrt (hitB : Particle ℝ) hitA = some (hitB', hitA') := by
  rw [(C18_receiver_symmetry hitA hitB).1, hit_result]
  rfl

/-- C16. Equal-mass elastic exchange: for equal non-zero masses, `0 < distance < 2 * 0.05`
and `relVel ≤ 0`, the call returns, the two particles have exchanged their velocity
components along the normal, and their components along the tangent `(-ny, nx)` are what
they were; when the two centres are on a horizontal line the `vx` values are swapped and
both `vy` values are unchanged. -/
theorem C16_equal_mass_exchange (a b : Particle ℝ)
    (hmass : a.mass = b.mass) (hm0 : a.mass ≠ 0)
    (hd0 : 0 < centreDistance Real.sqrt a b)
    (hd : centreDistance Real.sqrt a b < 2 * 0.05)
    (hrel : relVel Real.sqrt a b ≤ 0) :
    ∃ a' b' : Particle ℝ, resolveCollision Real.sqrt a b = some (a', b') ∧
      (velAlong (normalX Real.sqrt a b) (normalY Real.sqrt a b) a' =
          velAlong (normalX Real.sqrt a b) (normalY Real.sqrt a b) b ∧
        velAlong (normalX Real.sqrt a b) (normalY Real.sqrt a b) b' =
          velAlong (normalX Real.sqrt a b) (normalY Real.sqrt a b) a) ∧
      (velAlong (-normalY Real.sqrt a b) (normalX Real.sqrt a b) a' =
          velAlong (-normalY Real.sqrt a b) (normalX Real.sqrt a b) a ∧
        velAlong (-normalY Real.sqrt a b) (normalX Real.sqrt a b) b' =
          velAlong (-normalY Real.sqrt a b) (normalX Real.sqrt a b) b) ∧
      (a.y = b.y → a'.vx = b.vx ∧ b'.vx = a.vx ∧ a'.vy = a.vy ∧ b'.vy = b.vy) := by
  have h0 : centreDistance Real.sqrt a b ≠ 0 := ne_of_gt hd0
  have hd' : centreDistance Real.sqrt a b < 2 * radius := by
    simpa only [radius] using hd
  have hm : a.mass + b.mass ≠ 0 := by
    rw [← hmass]
    intro h
    apply hm0
    linarith
  have hunit := normal_unit a b h0
  have key : ∀ R m : ℝ, m ≠ 0 → 2 * R / (m + m) * m = R := by
    intro R m hm
    have h2 : m + m ≠ 0 := by
      intro h
      apply hm
      linarith
    rw [div_mul_eq_mul_div, div_eq_iff h2]
    ring
  have hJ : 2 * relVel Real.sqrt a b / (a.mass + b.mass) * a.mass = relVel Real.sqrt a b := by
    rw [← hmass]
    exact key _ _ hm0
  have hJb : 2 * relVel Real.sqrt a b / (a.mass + b.mass) * b.mass = relVel Real.sqrt a b := by
    rw [← hmass]
    exact key _ _ hm0
  refine ⟨_, _, resolveCollision_hit Real.sqrt a b hd' h0 (not_lt.mpr hrel) hm, ?_, ?_, ?_⟩
  · simp only [velAlong, hJ, hJb]
    simp only [relVel, relVelAlong]
    constructor
    · linear_combination
        ((b.vx - a.vx) * normalX Real.sqrt a b + (b.vy - a.vy) * normalY Real.sqrt a b) * hunit
    · linear_combination
        (-((b.vx - a.vx) * normalX Real.sqrt a b + (b.vy - a.vy) * normalY Real.sqrt a b))
          * hunit
  · simp only [velAlong]
    constructor <;> ring
  · intro hy
    have hny : normalY Real.sqrt a b = 0 := by
      simp only [normalY, hy, sub_self, zero_div]
    rw [hny] at hunit
    simp only [hJ, hJb, hny, mul_zero, add_zero, sub_zero]
    simp only [relVel, relVelAlong, hny, mul_zero, add_zero]
    refine ⟨?_, ?_, trivial, trivial⟩
    · linear_combination (b.vx - a.vx) * hunit
    · linear_combination (-(b.vx - a.vx)) * hunit

/-- C16 at `closeA` and `closeB`, the head-on pair `0.08` apart on a horizontal line. -/
theorem C16_equal_mass_exchange_witness :
    ∃ a' b' : Particle ℝ, resolveCollision Real.sqrt closeA closeB = some (a', b') ∧
      a'.vx = (closeB : Particle ℝ).vx ∧ b'.vx = (closeA : Particle ℝ).vx ∧
      a'.vy = (closeA : Particle ℝ).vy ∧ b'.vy = (closeB : Particle ℝ).vy := by
  obtain ⟨a', b', h, -, -, hline⟩ := C16_equal_mass_exchange closeA closeB rfl
    (by norm_num [closeA]) (by rw [close_distance]; norm_num)
    (by rw [close_distance]; norm_num) (by rw [close_relVel]; norm_num)
  exact ⟨a', b', h, hline rfl⟩

end Symmetry

section Overlap

/-- On a horizontal line the centre distance is the difference of the abscissas. -/
theorem centreDistance_resting (x1 x2 : ℝ) (h : x1 ≤ x2) :
    centreDistance Real.sqrt (restingAt x1) (restingAt x2) = x2 - x1 := by
  simp only [centreDistance, restingAt, sub_self, mul_zero, add_zero]
  exact Real.sqrt_mul_self (by linarith)

/-- Two particles at rest on a horizontal line, closer than `2 * radius`, are pushed apart
symmetrically until they are `2 * radius` apart. -/
theorem resolveCollision_resting (x1 x2 : ℝ) (h : x1 < x2) (hd : x2 - x1 < 2 * 0.05) :
    resolveCollision Real.sqrt (restingAt x1) (restingAt x2) =
      some (restingAt (x1 - (2 * 0.05 - (x2 - x1)) / 2),
        restingAt (x2 + (2 * 0.05 - (x2 - x1)) / 2)) := by
  have hdist := centreDistance_resting x1 x2 (le_of_lt h)
  have hne : x2 - x1 ≠ 0 := by linarith
  have hrel : relVel Real.sqrt (restingAt x1) (restingAt x2) = 0 := by
    simp only [relVel, relVelAlong, restingAt, sub_self, zero_mul, add_zero]
  rw [resolveCollision_hit Real.sqrt _ _ (by rw [hdist, radius]; exact hd)
    (by rw [hdist]; exact hne) (by rw [hrel]; exact lt_irrefl 0)
    (by simp only [restingAt]; norm_num)]
  simp only [hrel, normalX, normalY, hdist]
  simp only [restingAt, radius, Option.some.injEq, Prod.mk.injEq, Particle.mk.injEq,
    and_true, true_and]
  have hnx : (x2 - x1) / (x2 - x1) = 1 := div_self hne
  rw [hnx]
  refine ⟨⟨?_, ?_, ?_, ?_⟩, ?_, ?_, ?_, ?_⟩ <;> ring

/-- Two particles at rest on a horizontal line, at least `2 * radius` apart, are left as
they are. -/
theorem resolveCollision_resting_far (x1 x2 : ℝ) (h : x1 ≤ x2) (hd : 2 * 0.05 ≤ x2 - x1) :
    resolveCollision Real.sqrt (restingAt x1) (restingAt x2) =
      some (restingAt x1, restingAt x2) := by
  apply resolveCollision_far
  rw [centreDistance_resting x1 x2 h, radius]
  exact not_lt.mpr hd

theorem line_first :
    resolveCollision Real.sqrt (restingAt (0 : ℝ)) (restingAt 0.09) =
      some (restingAt (-0.005), restingAt 0.095) := by
  rw [resolveCollision_resting 0 0.09 (by norm_num) (by norm_num)]
  norm_num

theorem line_second :
    resolveCollision Real.sqrt (restingAt (-0.005 : ℝ)) (restingAt 0.18) =
      some (restingAt (-0.005), restingAt 0.18) :=
  resolveCollision_resting_far (-0.005) 0.18 (by norm_num) (by norm_num)

theorem line_third :
    resolveCollision Real.sqrt (restingAt (0.095 : ℝ)) (restingAt 0.18) =
      some (restingAt 0.0875, restingAt 0.1875) := by
  rw [resolveCollision_resting 0.095 0.18 (by norm_num) (by norm_num)]
  norm_num

/-- The inner loop on the particle vector makes the calls listed by `innerLoop`, in
order. -/
theorem innerPass_eq_foldlM {K : Type} [LinearOrderedField K] (sqrt : K → K) (n i : Nat) :
    ∀ (m j : Nat) (ps : List (Particle K)), n - j = m →
      innerPass sqrt n i j ps =
        (innerLoop n i j).foldlM (fun s p => resolveAt sqrt s p.1 p.2) ps := by
  intro m
  induction m with
  | zero =>
    intro j ps hj
    rw [innerPass, if_neg (by omega), innerLoop, if_neg (by omega)]
    rfl
  | succ m ih =>
    intro j ps hj
    rw [innerPass, if_pos (by omega), innerLoop, if_pos (by omega), List.foldlM_cons]
    cases hcall : resolveAt sqrt ps i j with
    | none => rfl
    | some next =>
      simp only [Option.bind_eq_bind, Option.some_bind]
      exact ih (j + 1) next (by omega)

/-- The collision pass on the particle vector makes the calls listed by `outerLoop`, in
order. -/
theorem outerPass_eq_foldlM {K : Type} [LinearOrderedField K] (sqrt : K → K) (n : Nat) :
    ∀ (m i : Nat) (ps : List (Particle K)), n - i = m →
      outerPass sqrt n i ps =
        (outerLoop n i).foldlM (fun s p => resolveAt sqrt s p.1 p.2) ps := by
  intro m
  induction m with
  | zero =>
    intro i ps hi
    rw [outerPass, if_neg (by omega), outerLoop, if_neg (by omega)]
    rfl
  | succ m ih =>
    intro i ps hi
    rw [outerPass, if_pos (by omega), outerLoop, if_pos (by omega), List.foldlM_append,
      innerPass_eq_foldlM sqrt n i _ (i + 1) ps rfl]
    cases hrow : (innerLoop n i (i + 1)).foldlM (fun s p => resolveAt sqrt s p.1 p.2) ps with
    | none => rfl
    | some next =>
      simp only [Option.bind_eq_bind, Option.some_bind]
      exact ih (i + 1) next (by omega)

/-- One collision pass performs `resolveCollision` on the pairs of `collisionCalls`, in
order, each call seeing what the earlier calls left. -/
theorem collisionPass_eq_foldlM {K : Type} [LinearOrderedField K] (sqrt : K → K)
    (ps : List (Particle K)) :
    collisionPass sqrt ps =
      (collisionCalls ps.length).foldlM (fun s p => resolveAt sqrt s p.1 p.2) ps :=
  outerPass_eq_foldlM sqrt ps.length ps.length 0 ps rfl

theorem innerLoop_step (n i j : Nat) (h : j < n) :
    innerLoop n i j = (i, j) :: innerLoop n i (j + 1) := by
  rw [innerLoop, if_pos h]

theorem innerLoop_done (n i j : Nat) (h : ¬ j < n) : innerLoop n i j = [] := by
  rw [innerLoop, if_neg h]

theorem outerLoop_step (n i : Nat) (h : i < n) :
    outerLoop n i = innerLoop n i (i + 1) ++ outerLoop n (i + 1) := by
  rw [outerLoop, if_pos h]

theorem outerLoop_done (n i : Nat) (h : ¬ i < n) : outerLoop n i = [] := by
  rw [outerLoop, if_neg h]

/-- The calls of a pass over three particles. -/
theorem collisionCalls_three : collisionCalls 3 = [(0, 1), (0, 2), (1, 2)] := by
  rw [collisionCalls, outerLoop_step 3 0 (by norm_num), outerLoop_step 3 1 (by norm_num),
    outerLoop_step 3 2 (by norm_num), outerLoop_done 3 3 (by norm_num),
    innerLoop_step 3 0 1 (by norm_num), innerLoop_step 3 0 2 (by norm_num),
    innerLoop_done 3 0 3 (by norm_num), innerLoop_step 3 1 2 (by norm_num),
    innerLoop_done 3 1 3 (by norm_num), innerLoop_done 3 2 3 (by norm_num)]
  rfl

/-- C19. The collision pass does not establish non-overlap: for three particles at rest on
the x axis at `x = 0`, `0.09` and `0.18`, one complete pass returns them at `x = -0.005`,
`0.0875` and `0.1875`, and the first two are then `0.0925 < 2 * 0.05` apart.  The call on
the pair `(0, 1)` had put them exactly `2 * 0.05` apart, at `-0.005` and `0.095`; the call
on the pair `(1, 2)` pushed the middle particle back. -/
theorem C19_pass_leaves_overlap :
    collisionPass Real.sqrt [restingAt (0 : ℝ), restingAt 0.09, restingAt 0.18] =
      some [restingAt (-0.005), restingAt 0.0875, restingAt 0.1875] ∧
    centreDistance Real.sqrt (restingAt (-0.005 : ℝ)) (restingAt 0.0875) < 2 * 0.05 ∧
    resolveCollision Real.sqrt (restingAt (0 : ℝ)) (restingAt 0.09) =
      some (restingAt (-0.005), restingAt 0.095) ∧
    centreDistance Real.sqrt (restingAt (-0.005 : ℝ)) (restingAt 0.095) = 2 * 0.05 := by
  refine ⟨?_, ?_, line_first, ?_⟩
  · rw [collisionPass_eq_foldlM]
    simp only [List.length_cons, List.length_nil, Nat.zero_add, Nat.reduceAdd,
      collisionCalls_three, List.foldlM_cons, List.foldlM_nil, resolveAt,
      List.getElem?_cons_zero, List.getElem?_cons_succ, line_first, List.set_cons_zero,
      List.set_cons_succ, Option.bind_eq_bind, Option.some_bind, line_second, line_third]
    rfl
  · rw [centreDistance_resting _ _ (by norm_num)]
    norm_num
  · rw [centreDistance_resting _ _ (by norm_num)]
    norm_num

end Overlap

section Binary32

/-- The literal `0.05f` is `13421773 * 2 ^ (-28)`. -/
theorem roundF32_radius : roundF32 0.05 = some (13421773 / 2 ^ 28) := by
  decide!

/-- In the program `2 * radius` is `13421773 * 2 ^ (-27)`, a little above `0.1`. -/
theorem twoRadiusF32_value : twoRadiusF32 = some (13421773 / 2 ^ 27) := by
  decide!

/-- Rounding leaves a binary32 value as it is, rounds a tie to the even significand,
turns the tie above the largest `float` into an overflow and the tie below the smallest
one into zero. -/
theorem roundF32_samples :
    roundF32 (13421773 / 2 ^ 28) = some (13421773 / 2 ^ 28) ∧
    roundF32 (26843545 / 2 ^ 28) = some (13421772 / 2 ^ 27) ∧
    roundF32 (1 / 3) = some (11184811 / 2 ^ 25) ∧
    roundF32 (2 ^ 128 - 2 ^ 103) = none ∧
    roundF32 (1 / 2 ^ 150) = some 0 ∧
    roundF32 (3 / 2 ^ 150) = some (1 / 2 ^ 148) := by
  decide!

/-- The square root is exact on a square and correctly rounded otherwise. -/
theorem sqrtF32_samples :
    sqrtF32 (some (1 / 4)) = some (1 / 2) ∧
    sqrtF32 (some 2) = some (11863283 / 2 ^ 23) ∧
    sqrtF32 (some 0) = some 0 ∧
    sqrtF32 (some (-1)) = none := by
  decide!

/-- The call on `roundA` and `roundB` in binary32. -/
theorem round_result : resolveCollisionF32 roundA roundB = some (roundA1, roundB1) := by
  decide!

/-- The call on `restA` and `restB` in binary32. -/
theorem rest_first : resolveCollisionF32 restA restB = some (restA1, restB1) := by
  decide!

/-- The call with the roles exchanged, on what the first call left: the receiver `restB1`
stays, `restA1` moves to `restA2`. -/
theorem rest_second : resolveCollisionF32 restB1 restA1 = some (restB1, restA2) := by
  decide!

/-- C2, as the claim states it, fails in the arithmetic of the program.  The particles
`roundA` at `(0, 0)` with velocity `(0.5, 0)` and `roundB` at `(0.0625, 0)` with velocity
`(-0.5, 0)` are `0.0625` apart, below `2 * radius`, and approach with `relVel = -1`.  After
the call their centres are on the line `y = 0` and `26843545 * 2 ^ (-28)` apart, and the
distance the program computes for them is `13421772 * 2 ^ (-27)`: neither is the program's
`2 * radius = 13421773 * 2 ^ (-27)`, nor `0.1`. -/
theorem C2_exact_distance_counterexample :
    (representable roundA ∧ representable roundB) ∧
    (distanceF32 roundA roundB = some 0.0625 ∧ twoRadiusF32 = some (13421773 / 2 ^ 27) ∧
      (0 : ℚ) < 0.0625 ∧ (0.0625 : ℚ) < 13421773 / 2 ^ 27 ∧
      relVelF32 roundA roundB = some (-1)) ∧
    resolveCollisionF32 roundA roundB = some (roundA1, roundB1) ∧
    distanceF32 roundA1 roundB1 = some (13421772 / 2 ^ 27) ∧
    distanceF32 roundA1 roundB1 ≠ twoRadiusF32 ∧
    (roundA1.y = roundB1.y ∧ roundB1.x - roundA1.x = 26843545 / 2 ^ 28 ∧
      roundB1.x - roundA1.x ≠ 13421773 / 2 ^ 27 ∧ roundB1.x - roundA1.x ≠ 0.1) := by
  decide!

/-- C2, amended.  Penetration is resolved up to rounding.  In exact real arithmetic, for
every pair with `0 < d < 2 * 0.05`, `relVel ≤ 0` and masses that do not sum to zero, the
call returns, the centres are then exactly `2 * 0.05` apart and the relative velocity along
the normal is negated, hence non-negative.  In the binary32 arithmetic of the program the
distance after the call need not be `2 * radius`: for `roundA` and `roundB` it is the
`float` next below `2 * radius` (`13421772 * 2 ^ (-27)` against `13421773 * 2 ^ (-27)`),
while the relative velocity along the normal is negated exactly, from `-1` to `1`. -/
theorem C2_penetration_resolved_up_to_rounding :
    (∀ a b : Particle ℝ,
      0 < centreDistance Real.sqrt a b → centreDistance Real.sqrt a b < 2 * 0.05 →
      relVel Real.sqrt a b ≤ 0 → a.mass + b.mass ≠ 0 →
      ∃ a' b' : Particle ℝ, resolveCollision Real.sqrt a b = some (a', b') ∧
        centreDistance Real.sqrt a' b' = 2 * 0.05 ∧
        relVelAlong (normalX Real.sqrt a b) (normalY Real.sqrt a b) a' b' =
          -relVel Real.sqrt a b ∧
        0 ≤ relVelAlong (normalX Real.sqrt a b) (normalY Real.sqrt a b) a' b') ∧
    (∃ a' b' : Particle ℚ, resolveCollisionF32 roundA roundB = some (a', b') ∧
      twoRadiusF32 = some (13421773 / 2 ^ 27) ∧
      distanceF32 a' b' = some (13421772 / 2 ^ 27) ∧
      relVelF32 roundA roundB = some (-1) ∧ relVelF32 a' b' = some 1) := by
  constructor
  · intro a b hd0 hd hrel hm
    exact penetration_resolved_exact a b hd0 hd hrel hm
  · exact ⟨roundA1, roundB1, round_result, by decide!, by decide!, by decide!, by decide!⟩

/-- C2 (amended) at `hitA` and `hitB`, which are `0.05` apart and approach with
`relVel = -0.08`, in exact arithmetic. -/
theorem C2_penetration_resolved_up_to_rounding_witness :
    ∃ a' b' : Particle ℝ, resolveCollision Real.sqrt hitA hitB = some (a', b') ∧
      centreDistance Real.sqrt a' b' = 2 * 0.05 ∧
      relVelAlong (normalX Real.sqrt hitA hitB) (normalY Real.sqrt hitA hitB) a' b' =
        -relVel Real.sqrt hitA hitB ∧
      0 ≤ relVelAlong (normalX Real.sqrt hitA hitB) (normalY Real.sqrt hitA hitB) a' b' :=
  C2_penetration_resolved_up_to_rounding.1 hitA hitB
    (by rw [hit_distance]; norm_num) (by rw [hit_distance]; norm_num)
    (by rw [hit_relVel]; norm_num) (by norm_num [hitA, hitB])

/-- C9. `resolveCollision` is not safe to call a second time with the roles exchanged, in
the arithmetic of the program: there are two particles with distinct centres and mass 1
each, `restA` at rest at `(0, 0)` and `restB` at rest at `(0.09f, 0)`, for which
`a.resolveCollision(b)` followed by `b.resolveCollision(a)` leaves the pair in another state
than `a.resolveCollision(b)` alone.  The first call leaves the centres rounded to
`0.099999994`, below `2 * radius`, with `relVel = 0`, so the second call separates them
again and moves `a` from `x = -0.004999999` to `x = -0.0050000027`. -/
theorem C9_second_call_changes_state :
    ∃ a b : Particle ℚ, (representable a ∧ representable b) ∧
      (a.x ≠ b.x ∨ a.y ≠ b.y) ∧ a.mass = 1 ∧ b.mass = 1 ∧
      ∃ a1 b1 a2 b2 : Particle ℚ, resolveCollisionF32 a b = some (a1, b1) ∧
        resolveCollisionF32 b1 a1 = some (b2, a2) ∧ (a2, b2) ≠ (a1, b1) :=
  ⟨restA, restB, by decide!, by decide!, by decide!, by decide!,
    restA1, restB1, restA2, restB1, rest_first, rest_second, by decide!⟩

end Binary32

end ParticleSim
